import Mathlib

/-!
# InsertExecutor (src/ee/executors/insertexecutor.cpp)

A shallow embedding of `InsertExecutor::p_init` and `InsertExecutor::p_execute`
of the H-Store execution engine, and theorems about them.

The executor talks to four collaborators whose code lives in other files of the
engine: the tables (`insertTuple`), the site router (`isLocalSite`), the ARIES
logger (`log`) and the clock (`computeTimeStamp`).  They are embedded as
capabilities: a table carries its contents and an acceptance function, the
engine carries the router, the clock and the logger.  Every call the executor
makes to one of them is appended to an event trace, so that ordering properties
can be stated.

C++ `int` arithmetic on the row counter is taken as exact (`Int`): the counter
is incremented once per inserted row and a temp table never holds 2^31 rows.
-/

namespace voltdb

/-- Modelled from the spec: the column types of `common/types.h`, a header that
is not part of the sources at hand.  Only `VALUE_TYPE_VARCHAR`, "the
variable-length string type", is ever inspected by the executor. -/
inductive ValueType where
  | VALUE_TYPE_INVALID
  | VALUE_TYPE_NULL
  | VALUE_TYPE_TINYINT
  | VALUE_TYPE_SMALLINT
  | VALUE_TYPE_INTEGER
  | VALUE_TYPE_BIGINT
  | VALUE_TYPE_DOUBLE
  | VALUE_TYPE_VARCHAR
  | VALUE_TYPE_TIMESTAMP
  | VALUE_TYPE_DECIMAL
  deriving DecidableEq, Repr

/-- Modelled from the spec: a typed value held in one column of a row
(`NValue`, declared outside the sources at hand). -/
inductive NValue where
  | null
  | integer (v : Int)
  | varchar (s : String)
  deriving DecidableEq, Repr

/-- Modelled from the spec: a row, "an ordered, fixed-arity sequence of typed
values" (`TableTuple`, declared in `common/tabletuple.h`). -/
structure TableTuple where
  values : List NValue
  deriving DecidableEq, Repr

/-- The call `m_tuple.getNValue(idx)`: the value held in column `idx`. -/
def TableTuple.getNValue (t : TableTuple) (idx : Int) : NValue :=
  t.values.getD idx.toNat NValue.null

/-- The dynamic type of a `Table*`, as `dynamic_cast` observes it. -/
inductive TableKind where
  | PersistentTable
  | StreamedTable
  | TempTable
  deriving DecidableEq, Repr

/-- Modelled from the spec: a relation with its storage capability
`insert(row) -> success|failure` (`storage/table.h` and its subclasses are not
part of the sources at hand).  `tuples` is the content in insertion order;
`accepts` is the verdict the storage engine gives for a row, which may depend
on the present content; `partitionColumn` is what `partitionColumn()` answers
(`-1` for "none") and `schema` what `schema()->columnType(i)` reads. -/
structure Table where
  kind : TableKind
  name : String
  schema : List ValueType
  partitionColumn : Int
  tuples : List TableTuple
  accepts : List TableTuple → TableTuple → Bool

/-- The call `table->schema()->columnType(idx)`. -/
def Table.columnType (tbl : Table) (idx : Int) : ValueType :=
  tbl.schema.getD idx.toNat ValueType.VALUE_TYPE_INVALID

/-- The call `table->activeTupleCount()`. -/
def Table.activeTupleCount (tbl : Table) : Nat :=
  tbl.tuples.length

/-- Modelled from the spec: `table->insertTuple(tuple)`, the storage capability
`insert(row) -> success|failure`.  An accepted row is appended to the content,
a rejected row leaves the table as it was. -/
def Table.insertTuple (tbl : Table) (t : TableTuple) : Bool × Table :=
  if tbl.accepts tbl.tuples t then
    (true, { tbl with tuples := tbl.tuples ++ [t] })
  else
    (false, tbl)

/-- The operation kinds of a log record; the executor only builds `T_INSERT`. -/
inductive LogRecordType where
  | T_INSERT
  | T_UPDATE
  | T_DELETE
  deriving DecidableEq, Repr

/-- The running mode written in a log record; the executor only uses
`T_FORWARD`, "the system is running normally". -/
inductive LogRecordCategory where
  | T_FORWARD
  | T_RECOVERY
  deriving DecidableEq, Repr

/-- The arguments of the `LogRecord` constructor call at lines 154-166, in the
order of the call.  `none` stands for a `NULL` argument. -/
structure LogRecord where
  timestamp : Int
  type : LogRecordType
  category : LogRecordCategory
  prevLsn : Int
  txnId : Int
  siteId : Int
  tableName : String
  primaryKey : Option TableTuple
  numCols : Int
  modifiedCols : Option (List Int)
  beforeImage : Option TableTuple
  afterImage : Option TableTuple
  deriving DecidableEq, Repr

/-- What the executor reads from, and writes to, its surroundings: the
transaction id, the site id, the partition-ownership oracle `isLocalSite` and
the aggregate `m_tuplesModified` of `m_engine`, the clock `computeTimeStamp()`
(its reading is a function of the number of events that happened before in the
run), the records the ARIES logger has received so far (`logged`), and what
the sink would report for a record given what it already holds
(`logPersists`; the call `logger->log(...)` itself is a statement: nothing is
returned to the executor). -/
structure VoltDBEngine where
  currentTxnId : Int
  siteId : Int
  isLocalSite : NValue → Bool
  computeTimeStamp : Nat → Int
  logPersists : List LogRecord → LogRecord → Bool
  logged : List LogRecord
  m_tuplesModified : Int

/-- The two preprocessor switches the function depends on: `DEBUG` turns on the
empty-input check of lines 116-126, `NDEBUG` turns the `assert`s off. -/
structure BuildFlags where
  DEBUG : Bool
  NDEBUG : Bool
  deriving DecidableEq, Repr

/-- What `p_init` reads from the `InsertPlanNode`: `getTargetTable()` (which
may be `NULL`), `getInputTables()`, `isMultiPartition()`, and the storage
capability that `TableFactory::getCopiedTempTable` gives the output table. -/
structure InsertPlanNode where
  targetTable : Option Table
  inputTables : List Table
  multiPartition : Bool
  outputAccepts : List TableTuple → TableTuple → Bool

/-- The members of `InsertExecutor` set by `p_init`, with the output table of
the plan node (`m_node->getOutputTable()`). -/
structure InsertExecutor where
  m_inputTable : Table
  m_targetTable : Table
  outputTable : Table
  m_partitionColumn : Int
  m_partitionColumnIsString : Bool
  m_multiPartition : Bool

/-- Modelled from the spec: `TableFactory::getCopiedTempTable`, which makes an
empty temp table with the name given and the schema of the source table. -/
def getCopiedTempTable (name : String) (source : Table)
    (accepts : List TableTuple → TableTuple → Bool) : Table :=
  { kind := TableKind.TempTable
    name := name
    schema := source.schema
    partitionColumn := -1
    tuples := []
    accepts := accepts }

/-- `InsertExecutor::p_init` (lines 68-107).  A violated `assert` (no target
table, not exactly one input table, an input that is not a temp table, a
target that is neither persistent nor streamed) gives `none`. -/
def InsertExecutor.p_init (node : InsertPlanNode) : Option InsertExecutor :=
  match node.targetTable, node.inputTables with
  | some m_targetTable, [m_inputTable] =>
    if m_inputTable.kind ≠ TableKind.TempTable then none
    else if m_targetTable.kind ≠ TableKind.PersistentTable
        ∧ m_targetTable.kind ≠ TableKind.StreamedTable then none
    else
      let outputTable :=
        getCopiedTempTable m_inputTable.name m_inputTable node.outputAccepts
      let persistentTarget : Bool := m_targetTable.kind = TableKind.PersistentTable
      let m_partitionColumn : Int :=
        if persistentTarget then m_targetTable.partitionColumn else -1
      let m_partitionColumnIsString : Bool :=
        if persistentTarget then
          if m_partitionColumn ≠ -1 then
            if m_inputTable.columnType m_partitionColumn = ValueType.VALUE_TYPE_VARCHAR then true
            else false
          else false
        else false
      some
        { m_inputTable := m_inputTable
          m_targetTable := m_targetTable
          outputTable := outputTable
          m_partitionColumn := m_partitionColumn
          m_partitionColumnIsString := m_partitionColumnIsString
          m_multiPartition := node.multiPartition }
  | _, _ => none

/-- One call of the executor to a collaborator, with the answer it got:
`next t` is a call of `iterator.next` that yields the row `t` (the call that
finds the input exhausted leaves no event), and `log` carries what the sink
would have reported for the record. -/
inductive Event where
  | next (t : TableTuple)
  | log (logrecord : LogRecord) (persisted : Bool)
  | isLocalSite (value : NValue) (isLocal : Bool)
  | targetInsert (t : TableTuple) (ok : Bool)
  | outputInsert (t : TableTuple) (ok : Bool)
  deriving DecidableEq, Repr

/-- The mutable state of one run of `p_execute`: the two tables written, the
records the logger holds, the local counter `modifiedTuples`, and the trace of
the calls made so far. -/
structure ExecState where
  targetTable : Table
  outputTable : Table
  logged : List LogRecord
  modifiedTuples : Int
  trace : List Event

/-- Append an event to the trace. -/
def ExecState.emit (s : ExecState) (e : Event) : ExecState :=
  { s with trace := s.trace ++ [e] }

/-- The log record of lines 154-166 for the current row. -/
def mkLogRecord (eng : VoltDBEngine) (m_tuple : TableTuple) (s : ExecState) :
    LogRecord :=
  { timestamp := eng.computeTimeStamp s.trace.length
    type := LogRecordType.T_INSERT
    category := LogRecordCategory.T_FORWARD
    prevLsn := -1
    txnId := eng.currentTxnId
    siteId := eng.siteId
    tableName := s.targetTable.name
    primaryKey := none
    numCols := -1
    modifiedCols := none
    beforeImage := none
    afterImage := some m_tuple }

/-- Lines 148-190: when the target is a `PersistentTable`, build the log record
of the row and hand it to the logger. -/
def logTuple (eng : VoltDBEngine) (m_tuple : TableTuple) (s : ExecState) : ExecState :=
  if s.targetTable.kind = TableKind.PersistentTable then
    let logrecord := mkLogRecord eng m_tuple s
    { s with
      logged := s.logged ++ [logrecord]
      trace := s.trace ++ [Event.log logrecord (eng.logPersists s.logged logrecord)] }
  else
    s

/-- Lines 211-230: insert the row into the target table, then into the output
table, then count it.  The boolean is `false` when the function returns
`false`, and `true` when the loop goes on. -/
def insertTuples (m_tuple : TableTuple) (s : ExecState) : Bool × ExecState :=
  match s.targetTable.insertTuple m_tuple with
  | (false, targetTable) =>
    (false, { s with
      targetTable := targetTable
      trace := s.trace ++ [Event.targetInsert m_tuple false] })
  | (true, targetTable) =>
    let s1 : ExecState :=
      { s with
        targetTable := targetTable
        trace := s.trace ++ [Event.targetInsert m_tuple true] }
    match s1.outputTable.insertTuple m_tuple with
    | (false, outputTable) =>
      (false, { s1 with
        outputTable := outputTable
        trace := s1.trace ++ [Event.outputInsert m_tuple false] })
    | (true, outputTable) =>
      (true, { s1 with
        outputTable := outputTable
        trace := s1.trace ++ [Event.outputInsert m_tuple true]
        modifiedTuples := s1.modifiedTuples + 1 })

/-- The body of the `while` loop (lines 142-230) for one fetched row.  The
boolean is `false` when the body executes `return false`, and `true` when
control goes back to `iterator.next` (by `continue` or at the end of the
body). -/
def processTuple (ex : InsertExecutor) (eng : VoltDBEngine) (m_tuple : TableTuple)
    (s : ExecState) : Bool × ExecState :=
  let s1 := logTuple eng m_tuple s
  if ex.m_partitionColumn ≠ -1 then
    let value := m_tuple.getNValue ex.m_partitionColumn
    let isLocal := eng.isLocalSite value
    let s2 := s1.emit (Event.isLocalSite value isLocal)
    if !isLocal then
      if !ex.m_multiPartition then
        (false, s2)
      else
        (true, s2)
    else
      insertTuples m_tuple s2
  else
    insertTuples m_tuple s1

/-- The `while (iterator.next(m_tuple))` loop of lines 141-231 over the rows
the iterator has yet to yield.  The boolean is `false` when the loop is left
by `return false`. -/
def insertLoop (ex : InsertExecutor) (eng : VoltDBEngine) :
    List TableTuple → ExecState → Bool × ExecState
  | [], s => (true, s)
  | m_tuple :: rest, s =>
    match processTuple ex eng m_tuple (s.emit (Event.next m_tuple)) with
    | (true, s1) => insertLoop ex eng rest s1
    | (false, s1) => (false, s1)

/-- What a run of `p_execute` leaves behind: the value returned, the two
tables, the engine (with its modified-row aggregate and the records logged),
the value of the local counter `modifiedTuples` when the function returned,
and the trace of the calls made. -/
structure Outcome where
  status : Bool
  targetTable : Table
  outputTable : Table
  engine : VoltDBEngine
  modifiedTuples : Int
  trace : List Event

/-- The state in which the loop is entered. -/
def initialState (ex : InsertExecutor) (eng : VoltDBEngine) : ExecState :=
  { targetTable := ex.m_targetTable
    outputTable := ex.outputTable
    logged := eng.logged
    modifiedTuples := 0
    trace := [] }

/-- `InsertExecutor::p_execute` (lines 109-237).  `none` is the failure of
`assert (m_inputTable->activeTupleCount() > 0)` in a build with assertions. -/
def InsertExecutor.p_execute (flags : BuildFlags) (ex : InsertExecutor)
    (eng : VoltDBEngine) : Option Outcome :=
  if flags.DEBUG ∧ ex.m_inputTable.activeTupleCount = 0 then
    some
      { status := false
        targetTable := ex.m_targetTable
        outputTable := ex.outputTable
        engine := eng
        modifiedTuples := 0
        trace := [] }
  else if ¬ flags.NDEBUG ∧ ¬ (ex.m_inputTable.activeTupleCount > 0) then
    none
  else
    match insertLoop ex eng ex.m_inputTable.tuples (initialState ex eng) with
    | (true, s) =>
      some
        { status := true
          targetTable := s.targetTable
          outputTable := s.outputTable
          engine :=
            { eng with
              logged := s.logged
              m_tuplesModified := eng.m_tuplesModified + s.modifiedTuples }
          modifiedTuples := s.modifiedTuples
          trace := s.trace }
    | (false, s) =>
      some
        { status := false
          targetTable := s.targetTable
          outputTable := s.outputTable
          engine := { eng with logged := s.logged }
          modifiedTuples := s.modifiedTuples
          trace := s.trace }

/-- Whether the partition check of lines 192-209 lets the row through: there
is no partition column, or the router says the row's key is local. -/
def isLocalTuple (ex : InsertExecutor) (eng : VoltDBEngine) (t : TableTuple) : Bool :=
  ex.m_partitionColumn = -1 || eng.isLocalSite (t.getNValue ex.m_partitionColumn)

/-- The after-images of a list of log records. -/
def afterImages (records : List LogRecord) : List (Option TableTuple) :=
  records.map LogRecord.afterImage

/-- The log records handed to the sink in a trace, in order. -/
def logRecordsOf : List Event → List LogRecord
  | [] => []
  | Event.log logrecord _ :: es => logrecord :: logRecordsOf es
  | _ :: es => logRecordsOf es

/-- The partition keys the ownership oracle was asked about in a trace. -/
def oracleQueriesOf : List Event → List NValue
  | [] => []
  | Event.isLocalSite value _ :: es => value :: oracleQueriesOf es
  | _ :: es => oracleQueriesOf es

/-- The rows the target table accepted in a trace, in order. -/
def targetAcceptedOf : List Event → List TableTuple
  | [] => []
  | Event.targetInsert t true :: es => t :: targetAcceptedOf es
  | _ :: es => targetAcceptedOf es

/-- The rows the output table accepted in a trace, in order. -/
def outputAcceptedOf : List Event → List TableTuple
  | [] => []
  | Event.outputInsert t true :: es => t :: outputAcceptedOf es
  | _ :: es => outputAcceptedOf es

/-- The rows fetched from the input iterator in a trace, in order. -/
def fetchedOf : List Event → List TableTuple
  | [] => []
  | Event.next t :: es => t :: fetchedOf es
  | _ :: es => fetchedOf es

/-- A table that takes every row, with the content given. -/
def acceptingTable (kind : TableKind) (name : String) (partitionColumn : Int)
    (tuples : List TableTuple) : Table :=
  { kind := kind
    name := name
    schema := [ValueType.VALUE_TYPE_INTEGER, ValueType.VALUE_TYPE_INTEGER]
    partitionColumn := partitionColumn
    tuples := tuples
    accepts := fun _ _ => true }

/-- A two-column row of integers. -/
def row (a b : Int) : TableTuple :=
  { values := [NValue.integer a, NValue.integer b] }

/-- An engine for examples: keys that are even integers are local, the clock
counts events, the sink reports what `persists` says. -/
def sampleEngine (persists : Bool) : VoltDBEngine :=
  { currentTxnId := 7
    siteId := 1
    isLocalSite := fun v =>
      match v with
      | NValue.integer k => k % 2 == 0
      | _ => false
    computeTimeStamp := fun n => n
    logPersists := fun _ _ => persists
    logged := []
    m_tuplesModified := 10 }

/-- An executor for examples, bound to a target of the kind given over the
batch given; both tables take every row. -/
def sampleExecutor (kind : TableKind) (partitionColumn : Int) (multiPartition : Bool)
    (batch : List TableTuple) : InsertExecutor :=
  { m_inputTable := acceptingTable TableKind.TempTable "input" (-1) batch
    m_targetTable := acceptingTable kind "T" partitionColumn []
    outputTable := acceptingTable TableKind.TempTable "input" (-1) []
    m_partitionColumn := partitionColumn
    m_partitionColumnIsString := false
    m_multiPartition := multiPartition }

/-- The release build: no `DEBUG`, assertions off. -/
def releaseBuild : BuildFlags :=
  { DEBUG := false, NDEBUG := true }

/-- A table that takes rows until it holds `capacity` of them, and rejects
every row after that. -/
def boundedTable (kind : TableKind) (name : String) (partitionColumn : Int)
    (capacity : Nat) : Table :=
  { kind := kind
    name := name
    schema := [ValueType.VALUE_TYPE_INTEGER, ValueType.VALUE_TYPE_INTEGER]
    partitionColumn := partitionColumn
    tuples := []
    accepts := fun rows _ => decide (rows.length < capacity) }

/-- The log record the executor builds for the row `t` of table "T" in the
sample engine at clock reading `ts`. -/
def sampleRecord (ts : Int) (t : TableTuple) : LogRecord :=
  { timestamp := ts
    type := LogRecordType.T_INSERT
    category := LogRecordCategory.T_FORWARD
    prevLsn := -1
    txnId := 7
    siteId := 1
    tableName := "T"
    primaryKey := none
    numCols := -1
    modifiedCols := none
    beforeImage := none
    afterImage := some t }

/-- The outcome of a run that did nothing; it stands for the outcome of a run
stopped by a failed assertion where a value is needed. -/
def idleOutcome (ex : InsertExecutor) (eng : VoltDBEngine) : Outcome :=
  { status := false
    targetTable := ex.m_targetTable
    outputTable := ex.outputTable
    engine := eng
    modifiedTuples := 0
    trace := [] }

/-- The outcome of the run of `p_execute` in the release build. -/
def runOf (ex : InsertExecutor) (eng : VoltDBEngine) : Outcome :=
  (ex.p_execute releaseBuild eng).getD (idleOutcome ex eng)

/-- An event with the report of the sink blanked out. -/
def Event.forgetSink : Event → Event
  | Event.log logrecord _ => Event.log logrecord true
  | e => e

/-- What a run leaves behind apart from the reports of the sink: the value
returned, the rows of the two tables, the records the sink holds, the
aggregate, the local counter, and the trace with the reports of the sink
blanked out. -/
def Outcome.forgetSink (o : Outcome) :
    Bool × List TableTuple × List TableTuple × List LogRecord × Int × Int × List Event :=
  (o.status, o.targetTable.tuples, o.outputTable.tuples, o.engine.logged,
    o.engine.m_tuplesModified, o.modifiedTuples, o.trace.map Event.forgetSink)

/-- One step of the scan that checks the log-before-apply order of a trace.
The state is `none` once the order is violated, and otherwise `some pending`,
where `pending` is the after-image of the last record handed to the sink when
no insertion into the target has been made since.  An insertion into the
target is in order when its row is the pending one. -/
def lbaStep : Option (Option TableTuple) → Event → Option (Option TableTuple)
  | none, _ => none
  | some _, Event.log logrecord _ => some logrecord.afterImage
  | some pending, Event.targetInsert t _ => if pending = some t then some none else none
  | some pending, _ => some pending

/-- The scan of a whole trace for the log-before-apply order. -/
def lbaScan (tr : List Event) : Option (Option TableTuple) :=
  tr.foldl lbaStep (some none)

/-- An event that is neither a hand-off to the sink nor an insertion into the
target table. -/
def Event.isQuiet : Event → Bool
  | Event.log _ _ => false
  | Event.targetInsert _ _ => false
  | _ => true

/-- Log-before-apply, said of a trace: every insertion into the target table
comes after a hand-off to the sink of a record whose after-image is the row
inserted, with no other hand-off and no other insertion between the two. -/
def LogBeforeApply (tr : List Event) : Prop :=
  ∀ pre t ok post, tr = pre ++ Event.targetInsert t ok :: post →
    ∃ pre1 logrecord persisted mid,
      pre = pre1 ++ Event.log logrecord persisted :: mid
        ∧ logrecord.afterImage = some t
        ∧ ∀ e ∈ mid, e.isQuiet = true

/-- A trace whose accepted insertions into the two tables are the same rows,
and that does not end with the output table rejecting a row. -/
def Balanced (tr : List Event) : Prop :=
  targetAcceptedOf tr = outputAcceptedOf tr
    ∧ ∀ t, tr.getLast? ≠ some (Event.outputInsert t false)

/-- A trace that ends with the output table rejecting the row `t`, which the
target table had accepted just before: the target has that one row more. -/
def EndsUnpaired (tr : List Event) (t : TableTuple) : Prop :=
  targetAcceptedOf tr = outputAcceptedOf tr ++ [t]
    ∧ tr.getLast? = some (Event.outputInsert t false)

/-- An executor for examples, bound to a persistent target that takes
`targetCapacity` rows and an output table that takes `outputCapacity` rows. -/
def boundedExecutor (partitionColumn : Int) (multiPartition : Bool)
    (targetCapacity outputCapacity : Nat) (batch : List TableTuple) : InsertExecutor :=
  { m_inputTable := acceptingTable TableKind.TempTable "input" (-1) batch
    m_targetTable := boundedTable TableKind.PersistentTable "T" partitionColumn targetCapacity
    outputTable := boundedTable TableKind.TempTable "input" (-1) outputCapacity
    m_partitionColumn := partitionColumn
    m_partitionColumnIsString := false
    m_multiPartition := multiPartition }

/-- A plan node for examples: a target of the kind given that takes every row,
one input temp table holding the batch, and an output table that takes every
row. -/
def sampleNode (kind : TableKind) (partitionColumn : Int) (multiPartition : Bool)
    (batch : List TableTuple) : InsertPlanNode :=
  { targetTable := some (acceptingTable kind "T" partitionColumn [])
    inputTables := [acceptingTable TableKind.TempTable "input" (-1) batch]
    multiPartition := multiPartition
    outputAccepts := fun _ _ => true }

/-- The rows of a batch that a run over accepting tables commits: those that
pass the partition check in a multi-partition plan, those before the first
that fails it in a single-partition plan. -/
def committedRows (ex : InsertExecutor) (eng : VoltDBEngine) (rows : List TableTuple) :
    List TableTuple :=
  if ex.m_multiPartition then rows.filter (isLocalTuple ex eng)
  else rows.takeWhile (isLocalTuple ex eng)

/-- The `DEBUG` build with assertions compiled out. -/
def debugBuild : BuildFlags :=
  { DEBUG := true, NDEBUG := true }

/-- What a run leaves behind, laid out for comparison: the value returned, the
rows of the two tables, the records the sink holds, the aggregate, the local
counter and the trace. -/
def Outcome.summary (o : Outcome) :
    Bool × List TableTuple × List TableTuple × List LogRecord × Int × Int × List Event :=
  (o.status, o.targetTable.tuples, o.outputTable.tuples, o.engine.logged,
    o.engine.m_tuplesModified, o.modifiedTuples, o.trace)

/-- The shape of every log record the executor builds: an insert record of the
running system for the row `t`, with no previous LSN, no primary key, no
column mask and no before-image. -/
def insertRecord (timestamp txnId siteId : Int) (tableName : String) (t : TableTuple) :
    LogRecord :=
  { timestamp := timestamp
    type := LogRecordType.T_INSERT
    category := LogRecordCategory.T_FORWARD
    prevLsn := -1
    txnId := txnId
    siteId := siteId
    tableName := tableName
    primaryKey := none
    numCols := -1
    modifiedCols := none
    beforeImage := none
    afterImage := some t }

/-- One step of the scan that checks every event of a trace against the event
just before it: the state holds whether all checks passed so far, and the last
event seen. -/
def adjStep (ok : Option Event → Event → Bool) (st : Bool × Option Event) (e : Event) :
    Bool × Option Event :=
  (st.1 && ok st.2 e, some e)

/-- The scan of a whole trace with the check `ok`. -/
def adjScan (ok : Option Event → Event → Bool) (tr : List Event) : Bool × Option Event :=
  tr.foldl (adjStep ok) (true, none)

/-- The check on a hand-off to the sink: it comes right after the fetch of a
row, and its record is the insert record of that row for the transaction,
site and table given. -/
def okLog (txnId siteId : Int) (tableName : String) : Option Event → Event → Bool
  | some (Event.next t), Event.log logrecord _ =>
    decide (logrecord = insertRecord logrecord.timestamp txnId siteId tableName t)
  | _, Event.log _ _ => false
  | _, _ => true

/-- The check on an ownership query against a persistent target: it comes right
after the hand-off to the sink of a record, and the value asked about is the
one the after-image of that record holds in the partition column. -/
def okCheck (partitionColumn : Int) : Option Event → Event → Bool
  | some (Event.log logrecord _), Event.isLocalSite value _ =>
    decide (logrecord.afterImage.map (fun t => t.getNValue partitionColumn) = some value)
  | _, Event.isLocalSite _ _ => false
  | _, _ => true

/-- A table that takes every row, with the schema and the content given. -/
def typedTable (kind : TableKind) (name : String) (schema : List ValueType)
    (partitionColumn : Int) (tuples : List TableTuple) : Table :=
  { kind := kind
    name := name
    schema := schema
    partitionColumn := partitionColumn
    tuples := tuples
    accepts := fun _ _ => true }

/-- A plan node for examples: a persistent target whose schema is
`targetSchema` and whose partition column is column 0, and one input temp
table whose schema is `inputSchema`, holding the batch. -/
def typedNode (targetSchema inputSchema : List ValueType) (multiPartition : Bool)
    (batch : List TableTuple) : InsertPlanNode :=
  { targetTable := some (typedTable TableKind.PersistentTable "T" targetSchema 0 [])
    inputTables := [typedTable TableKind.TempTable "input" inputSchema (-1) batch]
    multiPartition := multiPartition
    outputAccepts := fun _ _ => true }

/-- A two-column row whose first column holds a string. -/
def keyRow (k : String) (b : Int) : TableTuple :=
  { values := [NValue.varchar k, NValue.integer b] }

theorem insertTuple_accepts (tbl : Table) (t : TableTuple) :
    (tbl.insertTuple t).2.accepts = tbl.accepts := by
  unfold Table.insertTuple; split <;> rfl

theorem insertTuple_kind (tbl : Table) (t : TableTuple) :
    (tbl.insertTuple t).2.kind = tbl.kind := by
  unfold Table.insertTuple; split <;> rfl

theorem insertTuple_name (tbl : Table) (t : TableTuple) :
    (tbl.insertTuple t).2.name = tbl.name := by
  unfold Table.insertTuple; split <;> rfl

theorem insertTuple_of_accepts (tbl : Table) (t : TableTuple)
    (h : tbl.accepts tbl.tuples t = true) :
    tbl.insertTuple t = (true, { tbl with tuples := tbl.tuples ++ [t] }) := by
  unfold Table.insertTuple; simp [h]

theorem insertTuple_of_rejects (tbl : Table) (t : TableTuple)
    (h : tbl.accepts tbl.tuples t = false) :
    tbl.insertTuple t = (false, tbl) := by
  unfold Table.insertTuple; simp [h]

/-- With both tables accepting, the insertion block appends the row to both and counts it. -/
theorem insertTuples_accepting (t : TableTuple) (s : ExecState)
    (ht : ∀ rows r, s.targetTable.accepts rows r = true)
    (ho : ∀ rows r, s.outputTable.accepts rows r = true) :
    insertTuples t s = (true,
      { s with
        targetTable := { s.targetTable with tuples := s.targetTable.tuples ++ [t] }
        outputTable := { s.outputTable with tuples := s.outputTable.tuples ++ [t] }
        trace := s.trace ++ [Event.targetInsert t true] ++ [Event.outputInsert t true]
        modifiedTuples := s.modifiedTuples + 1 }) := by
  unfold insertTuples
  rw [insertTuple_of_accepts _ _ (ht _ _)]
  simp only
  rw [insertTuple_of_accepts _ _ (ho _ _)]

theorem logTuple_targetTable (eng : VoltDBEngine) (t : TableTuple) (s : ExecState) :
    (logTuple eng t s).targetTable = s.targetTable := by
  unfold logTuple; split <;> rfl

theorem logTuple_outputTable (eng : VoltDBEngine) (t : TableTuple) (s : ExecState) :
    (logTuple eng t s).outputTable = s.outputTable := by
  unfold logTuple; split <;> rfl

theorem logTuple_modifiedTuples (eng : VoltDBEngine) (t : TableTuple) (s : ExecState) :
    (logTuple eng t s).modifiedTuples = s.modifiedTuples := by
  unfold logTuple; split <;> rfl

theorem insertLoop_cons (ex : InsertExecutor) (eng : VoltDBEngine) (t : TableTuple)
    (rest : List TableTuple) (s : ExecState) :
    insertLoop ex eng (t :: rest) s =
      if (processTuple ex eng t (s.emit (Event.next t))).1 = true then
        insertLoop ex eng rest (processTuple ex eng t (s.emit (Event.next t))).2
      else (false, (processTuple ex eng t (s.emit (Event.next t))).2) := by
  rw [insertLoop]
  rcases h : processTuple ex eng t (s.emit (Event.next t)) with ⟨b, s1⟩
  cases b <;> simp

/-- A row that passes the partition check, with both tables accepting. -/
theorem processTuple_local_accepting (ex : InsertExecutor) (eng : VoltDBEngine)
    (t : TableTuple) (s : ExecState) (hl : isLocalTuple ex eng t = true)
    (ht : ∀ rows r, s.targetTable.accepts rows r = true)
    (ho : ∀ rows r, s.outputTable.accepts rows r = true) :
    (processTuple ex eng t s).1 = true
      ∧ (processTuple ex eng t s).2.targetTable
          = { s.targetTable with tuples := s.targetTable.tuples ++ [t] }
      ∧ (processTuple ex eng t s).2.outputTable
          = { s.outputTable with tuples := s.outputTable.tuples ++ [t] }
      ∧ (processTuple ex eng t s).2.modifiedTuples = s.modifiedTuples + 1 := by
  unfold isLocalTuple at hl
  unfold processTuple
  by_cases hpc : ex.m_partitionColumn = -1
  · simp only [hpc, ne_eq, not_true_eq_false, if_false]
    rw [insertTuples_accepting _ _ (by rw [logTuple_targetTable]; exact ht)
      (by rw [logTuple_outputTable]; exact ho)]
    simp [logTuple_targetTable, logTuple_outputTable, logTuple_modifiedTuples]
  · have hloc : eng.isLocalSite (t.getNValue ex.m_partitionColumn) = true := by
      simpa [hpc] using hl
    simp only [ne_eq, hpc, not_false_eq_true, if_true, hloc, Bool.not_true, Bool.false_eq_true,
      if_false]
    rw [insertTuples_accepting _ _
      (by simp only [ExecState.emit]; rw [logTuple_targetTable]; exact ht)
      (by simp only [ExecState.emit]; rw [logTuple_outputTable]; exact ho)]
    simp [ExecState.emit, logTuple_targetTable, logTuple_outputTable, logTuple_modifiedTuples]

/-- A row that fails the partition check touches neither table. -/
theorem processTuple_nonlocal (ex : InsertExecutor) (eng : VoltDBEngine)
    (t : TableTuple) (s : ExecState) (hl : isLocalTuple ex eng t = false) :
    (processTuple ex eng t s).1 = ex.m_multiPartition
      ∧ (processTuple ex eng t s).2.targetTable = s.targetTable
      ∧ (processTuple ex eng t s).2.outputTable = s.outputTable
      ∧ (processTuple ex eng t s).2.modifiedTuples = s.modifiedTuples := by
  unfold isLocalTuple at hl
  simp only [Bool.or_eq_false_iff, decide_eq_false_iff_not] at hl
  obtain ⟨hpc, hloc⟩ := hl
  unfold processTuple
  simp only [ne_eq, hpc, not_false_eq_true, if_true, hloc, Bool.not_false]
  cases hm : ex.m_multiPartition <;>
    simp [ExecState.emit, logTuple_targetTable, logTuple_outputTable, logTuple_modifiedTuples]

theorem emit_targetTable (s : ExecState) (e : Event) : (s.emit e).targetTable = s.targetTable := rfl
theorem emit_outputTable (s : ExecState) (e : Event) : (s.emit e).outputTable = s.outputTable := rfl
theorem emit_modifiedTuples (s : ExecState) (e : Event) :
    (s.emit e).modifiedTuples = s.modifiedTuples := rfl
theorem emit_logged (s : ExecState) (e : Event) : (s.emit e).logged = s.logged := rfl

/-- The loop over accepting tables: a multi-partition plan commits the rows
that pass the partition check, a single-partition plan commits the rows before
the first one that fails it and succeeds when there is none. -/
theorem insertLoop_accepting (ex : InsertExecutor) (eng : VoltDBEngine)
    (rows : List TableTuple) (s : ExecState)
    (ht : ∀ rows r, s.targetTable.accepts rows r = true)
    (ho : ∀ rows r, s.outputTable.accepts rows r = true) :
    (insertLoop ex eng rows s).1
        = (ex.m_multiPartition || rows.all (isLocalTuple ex eng))
      ∧ (insertLoop ex eng rows s).2.targetTable.tuples
        = s.targetTable.tuples ++
            (if ex.m_multiPartition then rows.filter (isLocalTuple ex eng)
             else rows.takeWhile (isLocalTuple ex eng))
      ∧ (insertLoop ex eng rows s).2.outputTable.tuples
        = s.outputTable.tuples ++
            (if ex.m_multiPartition then rows.filter (isLocalTuple ex eng)
             else rows.takeWhile (isLocalTuple ex eng))
      ∧ (insertLoop ex eng rows s).2.modifiedTuples
        = s.modifiedTuples +
            (if ex.m_multiPartition then rows.filter (isLocalTuple ex eng)
             else rows.takeWhile (isLocalTuple ex eng)).length := by
  induction rows generalizing s with
  | nil => simp [insertLoop, ExecState.emit]
  | cons t rest ih =>
    rw [insertLoop_cons]
    cases hl : isLocalTuple ex eng t
    · obtain ⟨h1, h2, h3, h4⟩ :=
        processTuple_nonlocal ex eng t (s.emit (Event.next t)) hl
      cases hm : ex.m_multiPartition
      · rw [hm] at h1
        simp [h1, h2, h3, h4, hl, emit_targetTable, emit_outputTable, emit_modifiedTuples]
      · rw [hm] at h1
        have ih1 := ih (processTuple ex eng t (s.emit (Event.next t))).2
          (by rw [h2]; exact ht) (by rw [h3]; exact ho)
        rw [hm] at ih1
        simp only [h1, if_true]
        simpa [h2, h3, h4, hl, emit_targetTable, emit_outputTable, emit_modifiedTuples]
          using ih1
    · obtain ⟨h1, h2, h3, h4⟩ :=
        processTuple_local_accepting ex eng t (s.emit (Event.next t)) hl ht ho
      have ih1 := ih (processTuple ex eng t (s.emit (Event.next t))).2
        (by rw [h2]; exact ht) (by rw [h3]; exact ho)
      simp only [h1, if_true]
      rw [h2, h3, h4] at ih1
      obtain ⟨i1, i2, i3, i4⟩ := ih1
      refine ⟨?_, ?_, ?_, ?_⟩
      · simp [i1, hl]
      · rw [i2]; cases hm : ex.m_multiPartition <;>
          simp [hl, emit_targetTable]
      · rw [i3]; cases hm : ex.m_multiPartition <;>
          simp [hl, emit_outputTable]
      · rw [i4]; cases hm : ex.m_multiPartition <;>
          simp [hl, emit_modifiedTuples] <;> ring

/-- On a non-empty input, `p_execute` is the loop followed by the update of the
aggregate on the success path. -/
theorem p_execute_of_nonempty (flags : BuildFlags) (ex : InsertExecutor)
    (eng : VoltDBEngine) (hne : ex.m_inputTable.tuples ≠ []) :
    ex.p_execute flags eng = some
      { status := (insertLoop ex eng ex.m_inputTable.tuples (initialState ex eng)).1
        targetTable :=
          (insertLoop ex eng ex.m_inputTable.tuples (initialState ex eng)).2.targetTable
        outputTable :=
          (insertLoop ex eng ex.m_inputTable.tuples (initialState ex eng)).2.outputTable
        engine :=
          { eng with
            logged := (insertLoop ex eng ex.m_inputTable.tuples (initialState ex eng)).2.logged
            m_tuplesModified :=
              if (insertLoop ex eng ex.m_inputTable.tuples (initialState ex eng)).1 = true then
                eng.m_tuplesModified +
                  (insertLoop ex eng ex.m_inputTable.tuples
                    (initialState ex eng)).2.modifiedTuples
              else eng.m_tuplesModified }
        modifiedTuples :=
          (insertLoop ex eng ex.m_inputTable.tuples (initialState ex eng)).2.modifiedTuples
        trace := (insertLoop ex eng ex.m_inputTable.tuples (initialState ex eng)).2.trace } := by
  have hlen : ex.m_inputTable.activeTupleCount ≠ 0 := by
    unfold Table.activeTupleCount
    simpa using hne
  have hpos : ex.m_inputTable.activeTupleCount > 0 := Nat.pos_of_ne_zero hlen
  unfold InsertExecutor.p_execute
  rw [if_neg (fun h => hlen h.2), if_neg (fun h => h.2 hpos)]
  rcases h : insertLoop ex eng ex.m_inputTable.tuples (initialState ex eng) with ⟨b, s⟩
  cases b <;> simp

theorem isLocalTuple_of_no_column (ex : InsertExecutor) (eng : VoltDBEngine)
    (hpc : ex.m_partitionColumn = -1) : isLocalTuple ex eng = fun _ => true := by
  funext t; simp [isLocalTuple, hpc]

theorem isLocalTuple_of_column (ex : InsertExecutor) (eng : VoltDBEngine)
    (hpc : ex.m_partitionColumn ≠ -1) :
    isLocalTuple ex eng = fun t => eng.isLocalSite (t.getNValue ex.m_partitionColumn) := by
  funext t; simp [isLocalTuple, hpc]

theorem takeWhile_const_true {α : Type} (l : List α) :
    l.takeWhile (fun _ => true) = l := by
  induction l with
  | nil => rfl
  | cons a l ih => simp [List.takeWhile, ih]

theorem takeWhile_split {α : Type} (p : α → Bool) (pre post : List α) (r : α)
    (hpre : ∀ t ∈ pre, p t = true) (hr : p r = false) :
    (pre ++ r :: post).takeWhile p = pre := by
  induction pre with
  | nil => simp [List.takeWhile, hr]
  | cons a l ih =>
    have ha : p a = true := hpre a (List.mem_cons_self a l)
    simp [List.takeWhile, ha, ih (fun t ht => hpre t (List.mem_cons_of_mem a ht))]

/-- Without a partition column and with accepting tables, a run over a
non-empty batch returns true, appends the batch to both tables and adds its
size to the aggregate. -/
theorem p_execute_no_column_accepting (flags : BuildFlags) (ex : InsertExecutor)
    (eng : VoltDBEngine) (hne : ex.m_inputTable.tuples ≠ [])
    (hpc : ex.m_partitionColumn = -1)
    (ht : ∀ rows r, ex.m_targetTable.accepts rows r = true)
    (ho : ∀ rows r, ex.outputTable.accepts rows r = true) :
    (ex.p_execute flags eng).map Outcome.status = some true
      ∧ (ex.p_execute flags eng).map (fun o => o.targetTable.tuples)
          = some (ex.m_targetTable.tuples ++ ex.m_inputTable.tuples)
      ∧ (ex.p_execute flags eng).map (fun o => o.outputTable.tuples)
          = some (ex.outputTable.tuples ++ ex.m_inputTable.tuples)
      ∧ (ex.p_execute flags eng).map (fun o => o.engine.m_tuplesModified)
          = some (eng.m_tuplesModified + ex.m_inputTable.tuples.length) := by
  obtain ⟨h1, h2, h3, h4⟩ :=
    insertLoop_accepting ex eng ex.m_inputTable.tuples (initialState ex eng) ht ho
  rw [isLocalTuple_of_no_column ex eng hpc] at h1 h2 h3 h4
  rw [p_execute_of_nonempty flags ex eng hne]
  simp only [Option.map_some', h1, h2, h3, h4]
  simp [initialState, takeWhile_const_true]

/-- C1: with no partition column and accepting tables, a non-empty batch is
inserted whole, in batch order, into the target table and into the output
table, the function returns true, and `m_tuplesModified` grows by the batch
size. -/
theorem C1_no_partition_column_inserts_batch (flags : BuildFlags) (ex : InsertExecutor)
    (eng : VoltDBEngine) (hne : ex.m_inputTable.tuples ≠ [])
    (hpc : ex.m_partitionColumn = -1)
    (ht : ∀ rows r, ex.m_targetTable.accepts rows r = true)
    (ho : ∀ rows r, ex.outputTable.accepts rows r = true) :
    (ex.p_execute flags eng).map Outcome.status = some true
      ∧ (ex.p_execute flags eng).map (fun o => o.targetTable.tuples)
          = some (ex.m_targetTable.tuples ++ ex.m_inputTable.tuples)
      ∧ (ex.p_execute flags eng).map (fun o => o.outputTable.tuples)
          = some (ex.outputTable.tuples ++ ex.m_inputTable.tuples)
      ∧ (ex.p_execute flags eng).map (fun o => o.engine.m_tuplesModified)
          = some (eng.m_tuplesModified + ex.m_inputTable.tuples.length) :=
  p_execute_no_column_accepting flags ex eng hne hpc ht ho

/-- C2: with a partition column, a multi-partition plan and accepting tables, a
non-empty batch makes the function return true; the rows appended to the
target table and to the output table are the rows whose partition key
`isLocalSite` reports local, in batch order, and `m_tuplesModified` grows by
the number of those rows. -/
theorem C2_multi_partition_commits_local_rows (flags : BuildFlags) (ex : InsertExecutor)
    (eng : VoltDBEngine) (hne : ex.m_inputTable.tuples ≠ [])
    (hpc : ex.m_partitionColumn ≠ -1) (hmp : ex.m_multiPartition = true)
    (ht : ∀ rows r, ex.m_targetTable.accepts rows r = true)
    (ho : ∀ rows r, ex.outputTable.accepts rows r = true) :
    (ex.p_execute flags eng).map Outcome.status = some true
      ∧ (ex.p_execute flags eng).map (fun o => o.targetTable.tuples)
          = some (ex.m_targetTable.tuples ++ ex.m_inputTable.tuples.filter
              (fun t => eng.isLocalSite (t.getNValue ex.m_partitionColumn)))
      ∧ (ex.p_execute flags eng).map (fun o => o.outputTable.tuples)
          = some (ex.outputTable.tuples ++ ex.m_inputTable.tuples.filter
              (fun t => eng.isLocalSite (t.getNValue ex.m_partitionColumn)))
      ∧ (ex.p_execute flags eng).map (fun o => o.engine.m_tuplesModified)
          = some (eng.m_tuplesModified + (ex.m_inputTable.tuples.filter
              (fun t => eng.isLocalSite (t.getNValue ex.m_partitionColumn))).length) := by
  obtain ⟨h1, h2, h3, h4⟩ :=
    insertLoop_accepting ex eng ex.m_inputTable.tuples (initialState ex eng) ht ho
  rw [isLocalTuple_of_column ex eng hpc] at h1 h2 h3 h4
  rw [p_execute_of_nonempty flags ex eng hne]
  simp only [Option.map_some', h1, h2, h3, h4, hmp]
  simp [initialState]

/-- C3: with a partition column, a single-partition plan and accepting tables,
the function returns on a non-empty batch, and returns false exactly when some
row has a non-local partition key; and when `r` is the first such row of the
batch `pre ++ r :: post`, both tables have received exactly the rows of `pre`,
so that neither `r` nor a row of `post` is inserted. -/
theorem C3_single_partition_aborts_at_first_nonlocal (flags : BuildFlags)
    (ex : InsertExecutor) (eng : VoltDBEngine) (hne : ex.m_inputTable.tuples ≠ [])
    (hpc : ex.m_partitionColumn ≠ -1) (hmp : ex.m_multiPartition = false)
    (ht : ∀ rows r, ex.m_targetTable.accepts rows r = true)
    (ho : ∀ rows r, ex.outputTable.accepts rows r = true) :
    (ex.p_execute flags eng).isSome = true
      ∧ ((ex.p_execute flags eng).map Outcome.status = some false
        ↔ ∃ t ∈ ex.m_inputTable.tuples,
            eng.isLocalSite (t.getNValue ex.m_partitionColumn) = false)
      ∧ ∀ pre r post, ex.m_inputTable.tuples = pre ++ r :: post →
          (∀ t ∈ pre, eng.isLocalSite (t.getNValue ex.m_partitionColumn) = true) →
          eng.isLocalSite (r.getNValue ex.m_partitionColumn) = false →
          (ex.p_execute flags eng).map (fun o => o.targetTable.tuples)
              = some (ex.m_targetTable.tuples ++ pre)
            ∧ (ex.p_execute flags eng).map (fun o => o.outputTable.tuples)
              = some (ex.outputTable.tuples ++ pre) := by
  obtain ⟨h1, h2, h3, _⟩ :=
    insertLoop_accepting ex eng ex.m_inputTable.tuples (initialState ex eng) ht ho
  rw [isLocalTuple_of_column ex eng hpc] at h1 h2 h3
  rw [p_execute_of_nonempty flags ex eng hne]
  simp only [Option.map_some', h1, h2, h3, hmp]
  refine ⟨rfl, by simp, ?_⟩
  intro pre r post hsplit hpre hr
  rw [hsplit, takeWhile_split _ pre post r hpre hr]
  simp [initialState]

/-- C1 at the scenario of three rows and a target without partition column. -/
theorem C1_no_partition_column_inserts_batch_witness :
    ((sampleExecutor TableKind.PersistentTable (-1) false
          [row 1 10, row 2 20, row 3 30]).p_execute releaseBuild (sampleEngine true)).map
        Outcome.status = some true
      ∧ ((sampleExecutor TableKind.PersistentTable (-1) false
          [row 1 10, row 2 20, row 3 30]).p_execute releaseBuild (sampleEngine true)).map
        (fun o => o.targetTable.tuples) = some [row 1 10, row 2 20, row 3 30]
      ∧ ((sampleExecutor TableKind.PersistentTable (-1) false
          [row 1 10, row 2 20, row 3 30]).p_execute releaseBuild (sampleEngine true)).map
        (fun o => o.outputTable.tuples) = some [row 1 10, row 2 20, row 3 30]
      ∧ ((sampleExecutor TableKind.PersistentTable (-1) false
          [row 1 10, row 2 20, row 3 30]).p_execute releaseBuild (sampleEngine true)).map
        (fun o => o.engine.m_tuplesModified) = some 13 :=
  C1_no_partition_column_inserts_batch releaseBuild
    (sampleExecutor TableKind.PersistentTable (-1) false [row 1 10, row 2 20, row 3 30])
    (sampleEngine true) (by decide) rfl (fun _ _ => rfl) (fun _ _ => rfl)

/-- C2 at the scenario of four rows of which the second and the fourth are not
local. -/
theorem C2_multi_partition_commits_local_rows_witness :
    ((sampleExecutor TableKind.PersistentTable 0 true
          [row 2 10, row 1 20, row 4 30, row 3 40]).p_execute releaseBuild
          (sampleEngine true)).map Outcome.status = some true
      ∧ ((sampleExecutor TableKind.PersistentTable 0 true
          [row 2 10, row 1 20, row 4 30, row 3 40]).p_execute releaseBuild
          (sampleEngine true)).map (fun o => o.targetTable.tuples)
        = some [row 2 10, row 4 30]
      ∧ ((sampleExecutor TableKind.PersistentTable 0 true
          [row 2 10, row 1 20, row 4 30, row 3 40]).p_execute releaseBuild
          (sampleEngine true)).map (fun o => o.outputTable.tuples)
        = some [row 2 10, row 4 30]
      ∧ ((sampleExecutor TableKind.PersistentTable 0 true
          [row 2 10, row 1 20, row 4 30, row 3 40]).p_execute releaseBuild
          (sampleEngine true)).map (fun o => o.engine.m_tuplesModified) = some 12 :=
  C2_multi_partition_commits_local_rows releaseBuild
    (sampleExecutor TableKind.PersistentTable 0 true
      [row 2 10, row 1 20, row 4 30, row 3 40])
    (sampleEngine true) (by decide) (by decide) rfl (fun _ _ => rfl) (fun _ _ => rfl)

/-- C3 at the scenario of four rows of which the third is not local: the
function returns false and both tables hold the first two rows. -/
theorem C3_single_partition_aborts_at_first_nonlocal_witness :
    ((sampleExecutor TableKind.PersistentTable 0 false
          [row 2 10, row 4 20, row 1 30, row 6 40]).p_execute releaseBuild
          (sampleEngine true)).map Outcome.status = some false
      ∧ ((sampleExecutor TableKind.PersistentTable 0 false
          [row 2 10, row 4 20, row 1 30, row 6 40]).p_execute releaseBuild
          (sampleEngine true)).map (fun o => o.targetTable.tuples)
        = some [row 2 10, row 4 20]
      ∧ ((sampleExecutor TableKind.PersistentTable 0 false
          [row 2 10, row 4 20, row 1 30, row 6 40]).p_execute releaseBuild
          (sampleEngine true)).map (fun o => o.outputTable.tuples)
        = some [row 2 10, row 4 20] :=
  have h := C3_single_partition_aborts_at_first_nonlocal releaseBuild
    (sampleExecutor TableKind.PersistentTable 0 false
      [row 2 10, row 4 20, row 1 30, row 6 40])
    (sampleEngine true) (by decide) (by decide) rfl (fun _ _ => rfl) (fun _ _ => rfl)
  ⟨h.2.1.mpr ⟨row 1 30, by decide, by decide⟩,
    h.2.2 [row 2 10, row 4 20] (row 1 30) [row 6 40] rfl (by decide) (by decide)⟩

/-- The insertion block, by the verdicts of the two tables. -/
theorem insertTuples_eq (t : TableTuple) (s : ExecState) :
    insertTuples t s =
      if s.targetTable.accepts s.targetTable.tuples t = true then
        if s.outputTable.accepts s.outputTable.tuples t = true then
          (true,
            { s with
              targetTable := { s.targetTable with tuples := s.targetTable.tuples ++ [t] }
              outputTable := { s.outputTable with tuples := s.outputTable.tuples ++ [t] }
              trace := s.trace ++ [Event.targetInsert t true, Event.outputInsert t true]
              modifiedTuples := s.modifiedTuples + 1 })
        else
          (false,
            { s with
              targetTable := { s.targetTable with tuples := s.targetTable.tuples ++ [t] }
              trace := s.trace ++ [Event.targetInsert t true, Event.outputInsert t false] })
      else
        (false, { s with trace := s.trace ++ [Event.targetInsert t false] }) := by
  unfold insertTuples Table.insertTuple
  by_cases h1 : s.targetTable.accepts s.targetTable.tuples t = true
  · by_cases h2 : s.outputTable.accepts s.outputTable.tuples t = true
    · simp [h1, h2]
    · simp [h1, h2]
  · simp [h1]

/-- The loop body, by the verdict of the partition check. -/
theorem processTuple_eq (ex : InsertExecutor) (eng : VoltDBEngine) (t : TableTuple)
    (s : ExecState) :
    processTuple ex eng t s =
      if ex.m_partitionColumn = -1 then insertTuples t (logTuple eng t s)
      else if eng.isLocalSite (t.getNValue ex.m_partitionColumn) = true then
        insertTuples t ((logTuple eng t s).emit
          (Event.isLocalSite (t.getNValue ex.m_partitionColumn) true))
      else
        (ex.m_multiPartition, (logTuple eng t s).emit
          (Event.isLocalSite (t.getNValue ex.m_partitionColumn) false)) := by
  unfold processTuple
  by_cases hpc : ex.m_partitionColumn = -1
  · simp [hpc]
  · cases hl : eng.isLocalSite (t.getNValue ex.m_partitionColumn) <;>
      cases hm : ex.m_multiPartition <;> simp [hpc, hl, hm]

/-- The loop over a batch cut in two: the second part runs from the state the
first part leaves, unless the first part returned false. -/
theorem insertLoop_append (ex : InsertExecutor) (eng : VoltDBEngine)
    (pre post : List TableTuple) (s : ExecState) :
    insertLoop ex eng (pre ++ post) s =
      if (insertLoop ex eng pre s).1 = true then
        insertLoop ex eng post (insertLoop ex eng pre s).2
      else insertLoop ex eng pre s := by
  induction pre generalizing s with
  | nil => simp [insertLoop]
  | cons t rest ih =>
    rw [List.cons_append, insertLoop_cons, insertLoop_cons]
    by_cases h : (processTuple ex eng t (s.emit (Event.next t))).1 = true
    · simp only [h, if_true]; exact ih _
    · simp [h]

/-- The loop body changes neither the kind, the name nor the storage verdicts
of the two tables. -/
theorem processTuple_frame (ex : InsertExecutor) (eng : VoltDBEngine) (t : TableTuple)
    (s : ExecState) :
    (processTuple ex eng t s).2.targetTable.kind = s.targetTable.kind
      ∧ (processTuple ex eng t s).2.targetTable.name = s.targetTable.name
      ∧ (processTuple ex eng t s).2.targetTable.accepts = s.targetTable.accepts
      ∧ (processTuple ex eng t s).2.outputTable.accepts = s.outputTable.accepts := by
  rw [processTuple_eq]
  simp only [insertTuples_eq, ExecState.emit]
  split_ifs <;> simp [logTuple_targetTable, logTuple_outputTable]

/-- The loop changes neither the kind, the name nor the storage verdicts of the
two tables. -/
theorem insertLoop_frame (ex : InsertExecutor) (eng : VoltDBEngine)
    (rows : List TableTuple) (s : ExecState) :
    (insertLoop ex eng rows s).2.targetTable.kind = s.targetTable.kind
      ∧ (insertLoop ex eng rows s).2.targetTable.name = s.targetTable.name
      ∧ (insertLoop ex eng rows s).2.targetTable.accepts = s.targetTable.accepts
      ∧ (insertLoop ex eng rows s).2.outputTable.accepts = s.outputTable.accepts := by
  induction rows generalizing s with
  | nil => simp [insertLoop]
  | cons t rest ih =>
    rw [insertLoop_cons]
    obtain ⟨h1, h2, h3, h4⟩ := processTuple_frame ex eng t (s.emit (Event.next t))
    by_cases h : (processTuple ex eng t (s.emit (Event.next t))).1 = true
    · simp only [h, if_true]
      obtain ⟨i1, i2, i3, i4⟩ := ih (processTuple ex eng t (s.emit (Event.next t))).2
      exact ⟨i1.trans h1, i2.trans h2, i3.trans h3, i4.trans h4⟩
    · simp only [h, if_false]
      exact ⟨h1, h2, h3, h4⟩

theorem afterImages_append (a b : List LogRecord) :
    afterImages (a ++ b) = afterImages a ++ afterImages b := by
  simp [afterImages]

/-- Against a persistent target, the loop body hands the sink one record, whose
after-image is the row, whatever becomes of the row afterwards. -/
theorem processTuple_logged (ex : InsertExecutor) (eng : VoltDBEngine) (t : TableTuple)
    (s : ExecState) (hk : s.targetTable.kind = TableKind.PersistentTable) :
    (processTuple ex eng t s).2.logged = s.logged ++ [mkLogRecord eng t s] := by
  rw [processTuple_eq]
  simp only [insertTuples_eq, ExecState.emit]
  split_ifs <;> simp [logTuple, hk]

/-- Against a persistent target, a loop that runs to the end of the batch has
handed the sink one record for each row of the batch, in batch order. -/
theorem insertLoop_logged_of_true (ex : InsertExecutor) (eng : VoltDBEngine)
    (rows : List TableTuple) (s : ExecState)
    (hk : s.targetTable.kind = TableKind.PersistentTable)
    (hs : (insertLoop ex eng rows s).1 = true) :
    afterImages (insertLoop ex eng rows s).2.logged
      = afterImages s.logged ++ rows.map some := by
  induction rows generalizing s with
  | nil => simp [insertLoop]
  | cons t rest ih =>
    rw [insertLoop_cons] at hs ⊢
    by_cases h : (processTuple ex eng t (s.emit (Event.next t))).1 = true
    · simp only [h, if_true] at hs ⊢
      have hk1 : (processTuple ex eng t (s.emit (Event.next t))).2.targetTable.kind
          = TableKind.PersistentTable :=
        (processTuple_frame ex eng t (s.emit (Event.next t))).1.trans hk
      rw [ih _ hk1 hs, processTuple_logged ex eng t (s.emit (Event.next t)) hk]
      simp [afterImages, mkLogRecord, ExecState.emit]
    · simp [h] at hs

/-- Against a persistent target with a partition column and accepting tables,
what the sink holds after a run: a multi-partition plan has handed over the
whole batch, the skipped rows included; a single-partition plan that aborts on
`r`, the first non-local row of `pre ++ r :: post`, has handed over the rows
of `pre` and `r` itself, and committed the rows of `pre`. -/
theorem p_execute_logged_accepting (flags : BuildFlags) (ex : InsertExecutor)
    (eng : VoltDBEngine) (hne : ex.m_inputTable.tuples ≠ [])
    (hk : ex.m_targetTable.kind = TableKind.PersistentTable)
    (hpc : ex.m_partitionColumn ≠ -1)
    (ht : ∀ rows r, ex.m_targetTable.accepts rows r = true)
    (ho : ∀ rows r, ex.outputTable.accepts rows r = true) :
    (ex.m_multiPartition = true →
        (ex.p_execute flags eng).map (fun o => afterImages o.engine.logged)
          = some (afterImages eng.logged ++ ex.m_inputTable.tuples.map some))
      ∧ (ex.m_multiPartition = false → ∀ pre r post,
          ex.m_inputTable.tuples = pre ++ r :: post →
          (∀ t ∈ pre, eng.isLocalSite (t.getNValue ex.m_partitionColumn) = true) →
          eng.isLocalSite (r.getNValue ex.m_partitionColumn) = false →
          (ex.p_execute flags eng).map (fun o => afterImages o.engine.logged)
              = some (afterImages eng.logged ++ (pre ++ [r]).map some)
            ∧ (ex.p_execute flags eng).map (fun o => o.targetTable.tuples)
              = some (ex.m_targetTable.tuples ++ pre)) := by
  rw [p_execute_of_nonempty flags ex eng hne]
  simp only [Option.map_some', Option.some.injEq]
  constructor
  · intro hmp
    have hs := (insertLoop_accepting ex eng ex.m_inputTable.tuples (initialState ex eng)
      ht ho).1
    rw [hmp, Bool.true_or] at hs
    exact insertLoop_logged_of_true ex eng _ (initialState ex eng) hk hs
  · intro hmp pre r post hsplit hpre hr
    have hloc : ∀ t ∈ pre, isLocalTuple ex eng t = true := by
      intro t htm
      rw [isLocalTuple_of_column ex eng hpc]
      exact hpre t htm
    obtain ⟨p1, p2, _, _⟩ := insertLoop_accepting ex eng pre (initialState ex eng) ht ho
    have hall : pre.all (isLocalTuple ex eng) = true := by
      rw [List.all_eq_true]; exact hloc
    rw [hall, Bool.or_true] at p1
    have hlog := insertLoop_logged_of_true ex eng pre (initialState ex eng) hk p1
    have hk1 := (insertLoop_frame ex eng pre (initialState ex eng)).1.trans hk
    have hstep := processTuple_logged ex eng r
      ((insertLoop ex eng pre (initialState ex eng)).2.emit (Event.next r)) hk1
    have htw : pre.takeWhile (isLocalTuple ex eng) = pre := by
      rw [List.takeWhile_eq_self_iff]; exact hloc
    rw [hmp] at p2
    simp only [Bool.false_eq_true, if_false, htw] at p2
    rw [hsplit, insertLoop_append]
    simp only [p1, if_true]
    rw [insertLoop_cons]
    have hnl : (processTuple ex eng r
        ((insertLoop ex eng pre (initialState ex eng)).2.emit (Event.next r))).1 = false := by
      rw [processTuple_eq]; simp [hpc, hr, hmp]
    have htt : (processTuple ex eng r
        ((insertLoop ex eng pre (initialState ex eng)).2.emit
          (Event.next r))).2.targetTable.tuples
        = (insertLoop ex eng pre (initialState ex eng)).2.targetTable.tuples := by
      rw [processTuple_eq]; simp [hpc, hr, hmp, ExecState.emit, logTuple_targetTable]
    simp only [hnl, Bool.false_eq_true, if_false]
    refine ⟨?_, ?_⟩
    · rw [hstep, afterImages_append, emit_logged, hlog]
      simp [afterImages, mkLogRecord, initialState]
    · rw [htt, p2]; simp [initialState]

theorem snoc_eq_split {α : Type} (tr pre post : List α) (e x : α)
    (h : tr ++ [e] = pre ++ x :: post) :
    (post = [] ∧ e = x ∧ tr = pre) ∨ ∃ post1, post = post1 ++ [e] ∧ tr = pre ++ x :: post1 := by
  rcases List.eq_nil_or_concat post with rfl | ⟨post1, y, rfl⟩
  · left
    have h1 : tr ++ [e] = pre ++ [x] := h
    obtain ⟨h2, h3⟩ := List.append_inj' h1 rfl
    exact ⟨rfl, by simpa using h3, h2⟩
  · right
    have h1 : tr ++ [e] = (pre ++ x :: post1) ++ [y] := by simpa using h
    obtain ⟨h2, h3⟩ := List.append_inj' h1 rfl
    have h4 : e = y := by simpa using h3
    exact ⟨post1, by rw [h4, List.concat_eq_append], h2⟩

/-- A quiet event appended to a trace keeps the log-before-apply order and the
pending record. -/
theorem lba_snoc_quiet (tr : List Event) (e : Event) (he : e.isQuiet = true)
    (h1 : LogBeforeApply tr) : LogBeforeApply (tr ++ [e]) := by
  intro pre t ok post hsplit
  rcases snoc_eq_split tr pre post e _ hsplit with ⟨_, h3, _⟩ | ⟨post1, _, h3⟩
  · rw [h3] at he; simp [Event.isQuiet] at he
  · exact h1 pre t ok post1 h3

/-- What a trace that passes the scan looks like: it has the log-before-apply
order, and when a row is pending the trace ends with the hand-off of that row
followed by quiet events only. -/
theorem lbaScan_sound (tr : List Event) :
    ∀ p, lbaScan tr = some p →
      LogBeforeApply tr
        ∧ ∀ t, p = some t →
          ∃ pre1 logrecord persisted mid,
            tr = pre1 ++ Event.log logrecord persisted :: mid
              ∧ logrecord.afterImage = some t
              ∧ ∀ e ∈ mid, e.isQuiet = true := by
  induction tr using List.reverseRecOn with
  | nil =>
    intro p hp
    simp only [lbaScan, List.foldl_nil, Option.some.injEq] at hp
    refine ⟨?_, ?_⟩
    · intro pre t ok post h; simp at h
    · intro t ht; rw [← hp] at ht; simp at ht
  | append_singleton tr e ih =>
    intro p hp
    simp only [lbaScan, List.foldl_append, List.foldl_cons, List.foldl_nil] at hp
    cases hq : List.foldl lbaStep (some none) tr with
    | none => rw [hq] at hp; simp [lbaStep] at hp
    | some q =>
      rw [hq] at hp
      obtain ⟨hlba, hpend⟩ := ih q hq
      have keepPending : ∀ t, q = some t → e.isQuiet = true →
          ∃ pre1 logrecord persisted mid,
            tr ++ [e] = pre1 ++ Event.log logrecord persisted :: mid
              ∧ logrecord.afterImage = some t
              ∧ ∀ e1 ∈ mid, e1.isQuiet = true := by
        intro t ht he
        obtain ⟨pre1, r, pers, mid, h1, h2, h3⟩ := hpend t ht
        refine ⟨pre1, r, pers, mid ++ [e], by simp [h1], h2, ?_⟩
        intro e1 he1
        rcases List.mem_append.mp he1 with h | h
        · exact h3 e1 h
        · simp at h; rw [h]; exact he
      cases e with
      | next t0 =>
        simp only [lbaStep, Option.some.injEq] at hp
        exact ⟨lba_snoc_quiet tr _ rfl hlba, fun t ht => keepPending t (hp.trans ht) rfl⟩
      | isLocalSite v b =>
        simp only [lbaStep, Option.some.injEq] at hp
        exact ⟨lba_snoc_quiet tr _ rfl hlba, fun t ht => keepPending t (hp.trans ht) rfl⟩
      | outputInsert t0 b =>
        simp only [lbaStep, Option.some.injEq] at hp
        exact ⟨lba_snoc_quiet tr _ rfl hlba, fun t ht => keepPending t (hp.trans ht) rfl⟩
      | log r pers =>
        simp only [lbaStep, Option.some.injEq] at hp
        refine ⟨?_, ?_⟩
        · intro pre t ok post hsplit
          rcases snoc_eq_split tr pre post _ _ hsplit with ⟨_, h3, _⟩ | ⟨post1, _, h3⟩
          · simp at h3
          · exact hlba pre t ok post1 h3
        · intro t ht
          exact ⟨tr, r, pers, [], by simp, hp.trans ht, by simp⟩
      | targetInsert t0 b =>
        simp only [lbaStep] at hp
        by_cases hq0 : q = some t0
        · simp only [hq0, if_true, Option.some.injEq] at hp
          refine ⟨?_, ?_⟩
          · intro pre t ok post hsplit
            rcases snoc_eq_split tr pre post _ _ hsplit with ⟨_, h3, h4⟩ | ⟨post1, _, h3⟩
            · simp only [Event.targetInsert.injEq] at h3
              rw [← h4, ← h3.1]
              exact hpend t0 hq0
            · exact hlba pre t ok post1 h3
          · intro t ht; rw [← hp] at ht; simp at ht
        · simp [hq0] at hp

/-- Against a persistent target the loop body, run after the fetch of its row,
keeps a trace that passes the scan passing it. -/
theorem processTuple_lbaScan (ex : InsertExecutor) (eng : VoltDBEngine) (t : TableTuple)
    (s : ExecState) (hk : s.targetTable.kind = TableKind.PersistentTable)
    (hs : (lbaScan s.trace).isSome = true) :
    (lbaScan (processTuple ex eng t (s.emit (Event.next t))).2.trace).isSome = true := by
  obtain ⟨q, hq⟩ := Option.isSome_iff_exists.mp hs
  unfold lbaScan at hq ⊢
  rw [processTuple_eq]
  simp only [insertTuples_eq, ExecState.emit, logTuple, hk, if_true]
  split_ifs <;> simp [List.foldl_append, hq, lbaStep, mkLogRecord]

/-- Against a persistent target the loop keeps a trace that passes the scan
passing it. -/
theorem insertLoop_lbaScan (ex : InsertExecutor) (eng : VoltDBEngine)
    (rows : List TableTuple) (s : ExecState)
    (hk : s.targetTable.kind = TableKind.PersistentTable)
    (hs : (lbaScan s.trace).isSome = true) :
    (lbaScan (insertLoop ex eng rows s).2.trace).isSome = true := by
  induction rows generalizing s with
  | nil => simpa [insertLoop] using hs
  | cons t rest ih =>
    rw [insertLoop_cons]
    have h1 := processTuple_lbaScan ex eng t s hk hs
    have hk1 := (processTuple_frame ex eng t (s.emit (Event.next t))).1.trans hk
    by_cases h : (processTuple ex eng t (s.emit (Event.next t))).1 = true
    · simp only [h, if_true]; exact ih _ hk1 h1
    · simp only [h, if_false]; exact h1

theorem logRecordsOf_append (a b : List Event) :
    logRecordsOf (a ++ b) = logRecordsOf a ++ logRecordsOf b := by
  induction a with
  | nil => rfl
  | cons e l ih => cases e <;> simp [logRecordsOf, ih]

theorem oracleQueriesOf_append (a b : List Event) :
    oracleQueriesOf (a ++ b) = oracleQueriesOf a ++ oracleQueriesOf b := by
  induction a with
  | nil => rfl
  | cons e l ih => cases e <;> simp [oracleQueriesOf, ih]

theorem fetchedOf_append (a b : List Event) :
    fetchedOf (a ++ b) = fetchedOf a ++ fetchedOf b := by
  induction a with
  | nil => rfl
  | cons e l ih => cases e <;> simp [fetchedOf, ih]

theorem targetAcceptedOf_append (a b : List Event) :
    targetAcceptedOf (a ++ b) = targetAcceptedOf a ++ targetAcceptedOf b := by
  induction a with
  | nil => rfl
  | cons e l ih =>
    cases e with
    | targetInsert t ok => cases ok <;> simp [targetAcceptedOf, ih]
    | _ => simp [targetAcceptedOf, ih]

theorem outputAcceptedOf_append (a b : List Event) :
    outputAcceptedOf (a ++ b) = outputAcceptedOf a ++ outputAcceptedOf b := by
  induction a with
  | nil => rfl
  | cons e l ih =>
    cases e with
    | outputInsert t ok => cases ok <;> simp [outputAcceptedOf, ih]
    | _ => simp [outputAcceptedOf, ih]

/-- The loop body keeps the state in step with the trace: the sink holds the
records of the `log` events, each table holds the rows of its accepted
insertions, and the counter is the number of rows the output table took. -/
theorem processTuple_coherent (ex : InsertExecutor) (eng : VoltDBEngine) (t : TableTuple)
    (s : ExecState) (L0 : List LogRecord) (T0 O0 : List TableTuple)
    (hL : s.logged = L0 ++ logRecordsOf s.trace)
    (hT : s.targetTable.tuples = T0 ++ targetAcceptedOf s.trace)
    (hO : s.outputTable.tuples = O0 ++ outputAcceptedOf s.trace)
    (hM : s.modifiedTuples = (outputAcceptedOf s.trace).length) :
    (processTuple ex eng t s).2.logged
        = L0 ++ logRecordsOf (processTuple ex eng t s).2.trace
      ∧ (processTuple ex eng t s).2.targetTable.tuples
        = T0 ++ targetAcceptedOf (processTuple ex eng t s).2.trace
      ∧ (processTuple ex eng t s).2.outputTable.tuples
        = O0 ++ outputAcceptedOf (processTuple ex eng t s).2.trace
      ∧ (processTuple ex eng t s).2.modifiedTuples
        = (outputAcceptedOf (processTuple ex eng t s).2.trace).length := by
  rw [processTuple_eq]
  simp only [insertTuples_eq, ExecState.emit, logTuple]
  split_ifs <;>
    simp [logRecordsOf_append, targetAcceptedOf_append, outputAcceptedOf_append,
      logRecordsOf, targetAcceptedOf, outputAcceptedOf, hL, hT, hO, hM]

/-- The loop keeps the state in step with the trace. -/
theorem insertLoop_coherent (ex : InsertExecutor) (eng : VoltDBEngine)
    (rows : List TableTuple) (s : ExecState) (L0 : List LogRecord) (T0 O0 : List TableTuple)
    (hL : s.logged = L0 ++ logRecordsOf s.trace)
    (hT : s.targetTable.tuples = T0 ++ targetAcceptedOf s.trace)
    (hO : s.outputTable.tuples = O0 ++ outputAcceptedOf s.trace)
    (hM : s.modifiedTuples = (outputAcceptedOf s.trace).length) :
    (insertLoop ex eng rows s).2.logged
        = L0 ++ logRecordsOf (insertLoop ex eng rows s).2.trace
      ∧ (insertLoop ex eng rows s).2.targetTable.tuples
        = T0 ++ targetAcceptedOf (insertLoop ex eng rows s).2.trace
      ∧ (insertLoop ex eng rows s).2.outputTable.tuples
        = O0 ++ outputAcceptedOf (insertLoop ex eng rows s).2.trace
      ∧ (insertLoop ex eng rows s).2.modifiedTuples
        = (outputAcceptedOf (insertLoop ex eng rows s).2.trace).length := by
  induction rows generalizing s with
  | nil => exact ⟨hL, hT, hO, hM⟩
  | cons t rest ih =>
    rw [insertLoop_cons]
    have h1 := processTuple_coherent ex eng t (s.emit (Event.next t)) L0 T0 O0
      (by simp [ExecState.emit, logRecordsOf_append, logRecordsOf, hL])
      (by simp [ExecState.emit, targetAcceptedOf_append, targetAcceptedOf, hT])
      (by simp [ExecState.emit, outputAcceptedOf_append, outputAcceptedOf, hO])
      (by simp [ExecState.emit, outputAcceptedOf_append, outputAcceptedOf, hM])
    by_cases h : (processTuple ex eng t (s.emit (Event.next t))).1 = true
    · simp only [h, if_true]
      exact ih _ h1.1 h1.2.1 h1.2.2.1 h1.2.2.2
    · simp only [h, if_false]
      exact h1

/-- Every run of `p_execute` leaves the tables and the sink in step with its
trace. -/
theorem p_execute_coherent (flags : BuildFlags) (ex : InsertExecutor) (eng : VoltDBEngine)
    (out : Outcome) (hrun : ex.p_execute flags eng = some out) :
    out.engine.logged = eng.logged ++ logRecordsOf out.trace
      ∧ out.targetTable.tuples = ex.m_targetTable.tuples ++ targetAcceptedOf out.trace
      ∧ out.outputTable.tuples = ex.outputTable.tuples ++ outputAcceptedOf out.trace
      ∧ out.modifiedTuples = (outputAcceptedOf out.trace).length := by
  have hc := insertLoop_coherent ex eng ex.m_inputTable.tuples (initialState ex eng)
    eng.logged ex.m_targetTable.tuples ex.outputTable.tuples
    (by simp [initialState, logRecordsOf]) (by simp [initialState, targetAcceptedOf])
    (by simp [initialState, outputAcceptedOf]) (by simp [initialState, outputAcceptedOf])
  unfold InsertExecutor.p_execute at hrun
  split_ifs at hrun with h1 h2
  · simp only [Option.some.injEq] at hrun
    rw [← hrun]
    simp [logRecordsOf, targetAcceptedOf, outputAcceptedOf]
  · rcases h : insertLoop ex eng ex.m_inputTable.tuples (initialState ex eng) with ⟨b, s⟩
    rw [h] at hrun hc
    cases b <;> simp only [Option.some.injEq] at hrun <;> rw [← hrun] <;> exact hc

/-- C5: in every run against a persistent target, each insertion into the
target table comes after the hand-off to the sink of a record whose
after-image is the row inserted, with no other hand-off and no other insertion
between the two; the rows the run added to the target table are those of its
accepted insertions, and the records the sink received are those of its
hand-offs. -/
theorem C5_log_before_apply (flags : BuildFlags) (ex : InsertExecutor) (eng : VoltDBEngine)
    (out : Outcome) (hk : ex.m_targetTable.kind = TableKind.PersistentTable)
    (hrun : ex.p_execute flags eng = some out) :
    (∀ pre t ok post, out.trace = pre ++ Event.targetInsert t ok :: post →
        ∃ pre1 logrecord persisted mid,
          pre = pre1 ++ Event.log logrecord persisted :: mid
            ∧ logrecord.afterImage = some t
            ∧ ∀ e ∈ mid, e.isQuiet = true)
      ∧ out.targetTable.tuples = ex.m_targetTable.tuples ++ targetAcceptedOf out.trace
      ∧ out.engine.logged = eng.logged ++ logRecordsOf out.trace := by
  obtain ⟨c1, c2, _, _⟩ := p_execute_coherent flags ex eng out hrun
  refine ⟨?_, c2, c1⟩
  have hscan : (lbaScan out.trace).isSome = true := by
    have hl := insertLoop_lbaScan ex eng ex.m_inputTable.tuples (initialState ex eng) hk
      (by simp [initialState, lbaScan])
    unfold InsertExecutor.p_execute at hrun
    split_ifs at hrun with h1 h2
    · simp only [Option.some.injEq] at hrun
      rw [← hrun]; simp [lbaScan]
    · rcases h : insertLoop ex eng ex.m_inputTable.tuples (initialState ex eng) with ⟨b, s⟩
      rw [h] at hrun hl
      cases b <;> simp only [Option.some.injEq] at hrun <;> rw [← hrun] <;> exact hl
  obtain ⟨p, hp⟩ := Option.isSome_iff_exists.mp hscan
  exact (lbaScan_sound out.trace p hp).1

/-- C4 refuted as stated: in a single-partition plan whose third row of four is
not local, the sink has received three records when two rows were committed;
and in a multi-partition plan the skipped non-local row `row 1 20` has its
record in the sink. -/
theorem C4_nonlocal_rows_are_logged_counterexample :
    ((sampleExecutor TableKind.PersistentTable 0 false
          [row 2 10, row 4 20, row 1 30, row 6 40]).p_execute releaseBuild
          (sampleEngine true)).map
        (fun o => (o.status, o.targetTable.tuples, afterImages o.engine.logged))
        = some (false, [row 2 10, row 4 20],
            [some (row 2 10), some (row 4 20), some (row 1 30)])
      ∧ (sampleEngine true).isLocalSite ((row 1 20).getNValue 0) = false
      ∧ ((sampleExecutor TableKind.PersistentTable 0 true
          [row 2 10, row 1 20]).p_execute releaseBuild (sampleEngine true)).map
        (fun o => (o.status, o.targetTable.tuples, afterImages o.engine.logged))
        = some (true, [row 2 10], [some (row 2 10), some (row 1 20)]) := by
  decide

/-- C5 at a run of two rows against a persistent target: the insertion of the
first row comes after the hand-off of its record. -/
theorem C5_log_before_apply_witness :
    ∃ pre1 logrecord persisted mid,
      [Event.next (row 2 10), Event.log (sampleRecord 1 (row 2 10)) true,
          Event.isLocalSite (NValue.integer 2) true]
        = pre1 ++ Event.log logrecord persisted :: mid
        ∧ logrecord.afterImage = some (row 2 10)
        ∧ ∀ e ∈ mid, e.isQuiet = true :=
  (C5_log_before_apply releaseBuild
    (sampleExecutor TableKind.PersistentTable 0 true [row 2 10, row 1 20])
    (sampleEngine true)
    (runOf (sampleExecutor TableKind.PersistentTable 0 true [row 2 10, row 1 20])
      (sampleEngine true))
    rfl rfl).1
    [Event.next (row 2 10), Event.log (sampleRecord 1 (row 2 10)) true,
      Event.isLocalSite (NValue.integer 2) true]
    (row 2 10) true
    [Event.outputInsert (row 2 10) true, Event.next (row 1 20),
      Event.log (sampleRecord 6 (row 1 20)) true, Event.isLocalSite (NValue.integer 1) false]
    (by decide)

/-- C6 refuted as stated: the sink reports failure for the record of the one
row of the batch, and the function returns true with the row inserted into
the persistent target. -/
theorem C6_sink_failure_does_not_abort_counterexample :
    ((sampleExecutor TableKind.PersistentTable (-1) false [row 1 10]).p_execute
        releaseBuild (sampleEngine false)).map
        (fun o => (o.status, o.targetTable.tuples, o.trace))
      = some (true, [row 1 10],
          [Event.next (row 1 10), Event.log (sampleRecord 1 (row 1 10)) false,
            Event.targetInsert (row 1 10) true, Event.outputInsert (row 1 10) true]) := by
  decide

/-- Two states that differ at most in the reports of the sink written in their
traces stay so through the loop body, and the body returns the same value,
whatever the two sinks report. -/
theorem processTuple_forgetSink (ex : InsertExecutor) (eng : VoltDBEngine)
    (persists : List LogRecord → LogRecord → Bool) (t : TableTuple) (s s1 : ExecState)
    (hT : s1.targetTable = s.targetTable) (hO : s1.outputTable = s.outputTable)
    (hL : s1.logged = s.logged) (hM : s1.modifiedTuples = s.modifiedTuples)
    (hE : s1.trace.map Event.forgetSink = s.trace.map Event.forgetSink) :
    (processTuple ex { eng with logPersists := persists } t s1).1 = (processTuple ex eng t s).1
      ∧ (processTuple ex { eng with logPersists := persists } t s1).2.targetTable
        = (processTuple ex eng t s).2.targetTable
      ∧ (processTuple ex { eng with logPersists := persists } t s1).2.outputTable
        = (processTuple ex eng t s).2.outputTable
      ∧ (processTuple ex { eng with logPersists := persists } t s1).2.logged
        = (processTuple ex eng t s).2.logged
      ∧ (processTuple ex { eng with logPersists := persists } t s1).2.modifiedTuples
        = (processTuple ex eng t s).2.modifiedTuples
      ∧ (processTuple ex { eng with logPersists := persists } t s1).2.trace.map
          Event.forgetSink
        = (processTuple ex eng t s).2.trace.map Event.forgetSink := by
  have hlen : s1.trace.length = s.trace.length := by
    simpa using congrArg List.length hE
  rw [processTuple_eq, processTuple_eq]
  simp only [insertTuples_eq, ExecState.emit, logTuple, mkLogRecord]
  split_ifs <;> simp_all [Event.forgetSink]

/-- The loop returns the same value and leaves the same tables, records and
counter whatever the sink reports. -/
theorem insertLoop_forgetSink (ex : InsertExecutor) (eng : VoltDBEngine)
    (persists : List LogRecord → LogRecord → Bool) (rows : List TableTuple)
    (s s1 : ExecState)
    (hT : s1.targetTable = s.targetTable) (hO : s1.outputTable = s.outputTable)
    (hL : s1.logged = s.logged) (hM : s1.modifiedTuples = s.modifiedTuples)
    (hE : s1.trace.map Event.forgetSink = s.trace.map Event.forgetSink) :
    (insertLoop ex { eng with logPersists := persists } rows s1).1
        = (insertLoop ex eng rows s).1
      ∧ (insertLoop ex { eng with logPersists := persists } rows s1).2.targetTable
        = (insertLoop ex eng rows s).2.targetTable
      ∧ (insertLoop ex { eng with logPersists := persists } rows s1).2.outputTable
        = (insertLoop ex eng rows s).2.outputTable
      ∧ (insertLoop ex { eng with logPersists := persists } rows s1).2.logged
        = (insertLoop ex eng rows s).2.logged
      ∧ (insertLoop ex { eng with logPersists := persists } rows s1).2.modifiedTuples
        = (insertLoop ex eng rows s).2.modifiedTuples
      ∧ (insertLoop ex { eng with logPersists := persists } rows s1).2.trace.map
          Event.forgetSink
        = (insertLoop ex eng rows s).2.trace.map Event.forgetSink := by
  induction rows generalizing s s1 with
  | nil => exact ⟨rfl, hT, hO, hL, hM, hE⟩
  | cons t rest ih =>
    rw [insertLoop_cons, insertLoop_cons]
    obtain ⟨h1, h2, h3, h4, h5, h6⟩ := processTuple_forgetSink ex eng persists t
      (s.emit (Event.next t)) (s1.emit (Event.next t)) hT hO hL hM
      (by simp [ExecState.emit, hE])
    rw [h1]
    by_cases h : (processTuple ex eng t (s.emit (Event.next t))).1 = true
    · simp only [h, if_true]
      exact ih _ _ h2 h3 h4 h5 h6
    · simp only [h, if_false]
      exact ⟨rfl, h2, h3, h4, h5, h6⟩

/-- C6, as the code has it: `p_execute` never reads what the sink reports.
With any other sink in place of the engine's, the run returns the same value,
inserts the same rows into both tables, hands over the same records, adds the
same count, and makes the same calls in the same order. -/
theorem C6_outcome_independent_of_sink_report (flags : BuildFlags) (ex : InsertExecutor)
    (eng : VoltDBEngine) (persists : List LogRecord → LogRecord → Bool) :
    (ex.p_execute flags { eng with logPersists := persists }).map Outcome.forgetSink
      = (ex.p_execute flags eng).map Outcome.forgetSink := by
  obtain ⟨h1, h2, h3, h4, h5, h6⟩ := insertLoop_forgetSink ex eng persists
    ex.m_inputTable.tuples (initialState ex eng)
    (initialState ex { eng with logPersists := persists }) rfl rfl rfl rfl rfl
  unfold InsertExecutor.p_execute
  split_ifs with c1 c2
  · rfl
  · rfl
  · rcases ha : insertLoop ex eng ex.m_inputTable.tuples (initialState ex eng) with ⟨b, s⟩
    rcases hb : insertLoop ex { eng with logPersists := persists } ex.m_inputTable.tuples
      (initialState ex { eng with logPersists := persists }) with ⟨b1, s1⟩
    rw [ha, hb] at h1 h2 h3 h4 h5 h6
    simp only at h1 h2 h3 h4 h5 h6
    subst h1
    cases b1 <;> simp [Outcome.forgetSink, h2, h3, h4, h5, h6]

/-- From a balanced trace the loop body either goes on with a balanced trace,
or returns false with a trace that is balanced or that ends with the output
table rejecting the row. -/
theorem processTuple_balanced (ex : InsertExecutor) (eng : VoltDBEngine) (t : TableTuple)
    (s : ExecState) (hb : targetAcceptedOf s.trace = outputAcceptedOf s.trace) :
    Balanced (processTuple ex eng t (s.emit (Event.next t))).2.trace
      ∨ ((processTuple ex eng t (s.emit (Event.next t))).1 = false
          ∧ EndsUnpaired (processTuple ex eng t (s.emit (Event.next t))).2.trace t) := by
  rw [processTuple_eq]
  simp only [insertTuples_eq, ExecState.emit, logTuple, Balanced, EndsUnpaired]
  split_ifs <;>
    simp [targetAcceptedOf_append, outputAcceptedOf_append, targetAcceptedOf,
      outputAcceptedOf, hb, List.getLast?_append]

/-- From a balanced trace the loop ends with a balanced trace, or returns false
with a trace that ends with the output table rejecting a row. -/
theorem insertLoop_balanced (ex : InsertExecutor) (eng : VoltDBEngine)
    (rows : List TableTuple) (s : ExecState) (hb : Balanced s.trace) :
    Balanced (insertLoop ex eng rows s).2.trace
      ∨ ((insertLoop ex eng rows s).1 = false
          ∧ ∃ t, EndsUnpaired (insertLoop ex eng rows s).2.trace t) := by
  induction rows generalizing s with
  | nil => left; exact hb
  | cons t rest ih =>
    rw [insertLoop_cons]
    rcases processTuple_balanced ex eng t s hb.1 with h1 | ⟨h1, h2⟩
    · by_cases h : (processTuple ex eng t (s.emit (Event.next t))).1 = true
      · simp only [h, if_true]; exact ih _ h1
      · simp only [h, if_false]; left; exact h1
    · right
      rw [if_neg (by simp [h1])]
      exact ⟨rfl, t, h2⟩

/-- Every run of `p_execute` ends with a balanced trace, or returns false with
a trace that ends with the output table rejecting a row. -/
theorem p_execute_balanced (flags : BuildFlags) (ex : InsertExecutor) (eng : VoltDBEngine)
    (out : Outcome) (hrun : ex.p_execute flags eng = some out) :
    Balanced out.trace ∨ (out.status = false ∧ ∃ t, EndsUnpaired out.trace t) := by
  have hl := insertLoop_balanced ex eng ex.m_inputTable.tuples (initialState ex eng)
    (by simp [initialState, Balanced, targetAcceptedOf, outputAcceptedOf])
  unfold InsertExecutor.p_execute at hrun
  split_ifs at hrun with h1 h2
  · simp only [Option.some.injEq] at hrun
    rw [← hrun]
    left; simp [Balanced, targetAcceptedOf, outputAcceptedOf]
  · rcases h : insertLoop ex eng ex.m_inputTable.tuples (initialState ex eng) with ⟨b, s⟩
    rw [h] at hrun hl
    cases b <;> simp only [Option.some.injEq] at hrun <;> rw [← hrun] <;> exact hl

/-- C7 refuted as stated: the output table rejects the one row of the batch
after the target table has accepted it; the function returns false, the
target holds the row and the output table does not. -/
theorem C7_target_row_without_output_row_counterexample :
    ((boundedExecutor (-1) false 5 0 [row 1 10]).p_execute releaseBuild
        (sampleEngine true)).map
        (fun o => (o.status, o.targetTable.tuples, o.outputTable.tuples,
          targetAcceptedOf o.trace, outputAcceptedOf o.trace))
      = some (false, [row 1 10], [], [row 1 10], []) := by
  decide

/-- C7, as the code has it: after every run the rows added to the target table
and to the output table are those of the accepted insertions of the trace; they
are the same rows unless the run ended with the output table rejecting a row,
and in that case the function returned false and the target table has
accepted that one row more. -/
theorem C7_output_matches_target_unless_output_rejects (flags : BuildFlags)
    (ex : InsertExecutor) (eng : VoltDBEngine) (out : Outcome)
    (hrun : ex.p_execute flags eng = some out) :
    out.targetTable.tuples = ex.m_targetTable.tuples ++ targetAcceptedOf out.trace
      ∧ out.outputTable.tuples = ex.outputTable.tuples ++ outputAcceptedOf out.trace
      ∧ ((∀ t, out.trace.getLast? ≠ some (Event.outputInsert t false)) →
          targetAcceptedOf out.trace = outputAcceptedOf out.trace)
      ∧ (∀ t, out.trace.getLast? = some (Event.outputInsert t false) →
          out.status = false
            ∧ targetAcceptedOf out.trace = outputAcceptedOf out.trace ++ [t]) := by
  obtain ⟨_, c2, c3, _⟩ := p_execute_coherent flags ex eng out hrun
  refine ⟨c2, c3, ?_, ?_⟩
  · intro hend
    rcases p_execute_balanced flags ex eng out hrun with hb | ⟨_, t, _, h2⟩
    · exact hb.1
    · exact absurd h2 (hend t)
  · intro t hlast
    rcases p_execute_balanced flags ex eng out hrun with hb | ⟨hs, t1, h1, h2⟩
    · exact absurd hlast (hb.2 t)
    · rw [hlast] at h2
      simp only [Option.some.injEq, Event.outputInsert.injEq, and_true] at h2
      rw [h2]
      exact ⟨hs, h1⟩

/-- C7, as the code has it, at a run of three rows in a single-partition plan
that stops at the mis-partitioned third row: the two tables have received the
same two rows. -/
theorem C7_output_matches_target_unless_output_rejects_witness :
    targetAcceptedOf
        (runOf (sampleExecutor TableKind.PersistentTable 0 false
          [row 2 10, row 4 20, row 1 30]) (sampleEngine true)).trace
      = outputAcceptedOf
        (runOf (sampleExecutor TableKind.PersistentTable 0 false
          [row 2 10, row 4 20, row 1 30]) (sampleEngine true)).trace :=
  (C7_output_matches_target_unless_output_rejects releaseBuild
    (sampleExecutor TableKind.PersistentTable 0 false [row 2 10, row 4 20, row 1 30])
    (sampleEngine true)
    (runOf (sampleExecutor TableKind.PersistentTable 0 false
      [row 2 10, row 4 20, row 1 30]) (sampleEngine true))
    rfl).2.2.1
    (fun t h => by
      have h2 : some (Event.isLocalSite (NValue.integer 1) false)
          = some (Event.outputInsert t false) := h
      simp at h2)

/-- A run that returns false leaves `m_tuplesModified` as it was; a run that
returns true adds the local counter to it. -/
theorem p_execute_aggregate (flags : BuildFlags) (ex : InsertExecutor) (eng : VoltDBEngine)
    (out : Outcome) (hrun : ex.p_execute flags eng = some out) :
    out.engine.m_tuplesModified
      = if out.status = true then eng.m_tuplesModified + out.modifiedTuples
        else eng.m_tuplesModified := by
  unfold InsertExecutor.p_execute at hrun
  split_ifs at hrun with h1 h2
  · simp only [Option.some.injEq] at hrun
    rw [← hrun]; simp
  · rcases h : insertLoop ex eng ex.m_inputTable.tuples (initialState ex eng) with ⟨b, s⟩
    rw [h] at hrun
    cases b <;> simp only [Option.some.injEq] at hrun <;> rw [← hrun] <;> simp

/-- C8 refuted as stated: a single-partition plan aborts on the third row of
four after two rows were committed; the function returns false, which is all
it returns, and `m_tuplesModified` still has the value 10 it had before the
call, although the local counter had reached 2. -/
theorem C8_partial_count_is_lost_counterexample :
    ((sampleExecutor TableKind.PersistentTable 0 false
          [row 2 10, row 4 20, row 1 30, row 6 40]).p_execute releaseBuild
          (sampleEngine true)).map
        (fun o => (o.status, o.outputTable.tuples, o.modifiedTuples,
          o.engine.m_tuplesModified))
        = some (false, [row 2 10, row 4 20], 2, 10)
      ∧ (sampleEngine true).m_tuplesModified = 10 := by
  decide

/-- C8, as the code has it: when a run returns false, the count accumulated in
the loop, which is the number of rows the run added to the output table, is
dropped: `m_tuplesModified` has the value it had before the call. -/
theorem C8_failure_drops_the_count (flags : BuildFlags) (ex : InsertExecutor)
    (eng : VoltDBEngine) (out : Outcome) (hrun : ex.p_execute flags eng = some out)
    (hfail : out.status = false) :
    out.engine.m_tuplesModified = eng.m_tuplesModified
      ∧ out.modifiedTuples = (outputAcceptedOf out.trace).length
      ∧ out.outputTable.tuples = ex.outputTable.tuples ++ outputAcceptedOf out.trace := by
  obtain ⟨_, _, c3, c4⟩ := p_execute_coherent flags ex eng out hrun
  have ha := p_execute_aggregate flags ex eng out hrun
  rw [hfail] at ha
  exact ⟨by simpa using ha, c4, c3⟩

/-- C8, as the code has it, at the run of four rows that aborts on the third:
the aggregate is the one of before the call. -/
theorem C8_failure_drops_the_count_witness :
    (runOf (sampleExecutor TableKind.PersistentTable 0 false
        [row 2 10, row 4 20, row 1 30, row 6 40]) (sampleEngine true)).engine.m_tuplesModified
        = (sampleEngine true).m_tuplesModified
      ∧ (runOf (sampleExecutor TableKind.PersistentTable 0 false
        [row 2 10, row 4 20, row 1 30, row 6 40]) (sampleEngine true)).modifiedTuples
        = (outputAcceptedOf (runOf (sampleExecutor TableKind.PersistentTable 0 false
            [row 2 10, row 4 20, row 1 30, row 6 40]) (sampleEngine true)).trace).length
      ∧ (runOf (sampleExecutor TableKind.PersistentTable 0 false
        [row 2 10, row 4 20, row 1 30, row 6 40]) (sampleEngine true)).outputTable.tuples
        = [] ++ outputAcceptedOf (runOf (sampleExecutor TableKind.PersistentTable 0 false
            [row 2 10, row 4 20, row 1 30, row 6 40]) (sampleEngine true)).trace :=
  C8_failure_drops_the_count releaseBuild
    (sampleExecutor TableKind.PersistentTable 0 false
      [row 2 10, row 4 20, row 1 30, row 6 40])
    (sampleEngine true)
    (runOf (sampleExecutor TableKind.PersistentTable 0 false
      [row 2 10, row 4 20, row 1 30, row 6 40]) (sampleEngine true))
    rfl rfl

/-- When the loop body goes on to the next row, the row was either skipped as
non-local or added to both tables and counted. -/
theorem processTuple_of_true (ex : InsertExecutor) (eng : VoltDBEngine) (t : TableTuple)
    (s : ExecState) (h : (processTuple ex eng t s).1 = true) :
    (processTuple ex eng t s).2.targetTable.tuples
        = s.targetTable.tuples ++ [t].filter (isLocalTuple ex eng)
      ∧ (processTuple ex eng t s).2.outputTable.tuples
        = s.outputTable.tuples ++ [t].filter (isLocalTuple ex eng)
      ∧ (processTuple ex eng t s).2.modifiedTuples
        = s.modifiedTuples + ([t].filter (isLocalTuple ex eng)).length := by
  rw [processTuple_eq] at h ⊢
  simp only [insertTuples_eq, ExecState.emit] at h ⊢
  split_ifs at h ⊢ <;>
    simp_all [isLocalTuple, logTuple_targetTable, logTuple_outputTable,
      logTuple_modifiedTuples]

/-- A loop that runs to the end of its rows has added to both tables the rows
that pass the partition check, in order, and counted them, whatever the
storage verdicts could have been. -/
theorem insertLoop_of_true (ex : InsertExecutor) (eng : VoltDBEngine)
    (rows : List TableTuple) (s : ExecState) (h : (insertLoop ex eng rows s).1 = true) :
    (insertLoop ex eng rows s).2.targetTable.tuples
        = s.targetTable.tuples ++ rows.filter (isLocalTuple ex eng)
      ∧ (insertLoop ex eng rows s).2.outputTable.tuples
        = s.outputTable.tuples ++ rows.filter (isLocalTuple ex eng)
      ∧ (insertLoop ex eng rows s).2.modifiedTuples
        = s.modifiedTuples + (rows.filter (isLocalTuple ex eng)).length := by
  induction rows generalizing s with
  | nil => simp [insertLoop]
  | cons t rest ih =>
    rw [insertLoop_cons] at h ⊢
    by_cases hp : (processTuple ex eng t (s.emit (Event.next t))).1 = true
    · simp only [hp, if_true] at h ⊢
      obtain ⟨i1, i2, i3⟩ := ih _ h
      obtain ⟨p1, p2, p3⟩ := processTuple_of_true ex eng t (s.emit (Event.next t)) hp
      rw [i1, i2, i3, p1, p2, p3]
      simp only [emit_targetTable, emit_outputTable, emit_modifiedTuples]
      refine ⟨?_, ?_, ?_⟩
      · rw [List.append_assoc, ← List.filter_append]; rfl
      · rw [List.append_assoc, ← List.filter_append]; rfl
      · rw [add_assoc, ← Int.natCast_add, ← List.length_append, ← List.filter_append]; rfl
    · simp [hp] at h

/-- The events of a row that passes the partition check and that the target
table rejects, and the state the loop body leaves: nothing but the trace and
the sink has changed. -/
theorem processTuple_target_rejects (ex : InsertExecutor) (eng : VoltDBEngine)
    (r : TableTuple) (s : ExecState) (hloc : isLocalTuple ex eng r = true)
    (hrej : s.targetTable.accepts s.targetTable.tuples r = false) :
    (processTuple ex eng r (s.emit (Event.next r))).1 = false
      ∧ (processTuple ex eng r (s.emit (Event.next r))).2.targetTable = s.targetTable
      ∧ (processTuple ex eng r (s.emit (Event.next r))).2.outputTable = s.outputTable
      ∧ (processTuple ex eng r (s.emit (Event.next r))).2.modifiedTuples = s.modifiedTuples
      ∧ (processTuple ex eng r (s.emit (Event.next r))).2.trace
        = s.trace ++ [Event.next r]
          ++ (if s.targetTable.kind = TableKind.PersistentTable then
                [Event.log (mkLogRecord eng r (s.emit (Event.next r)))
                  (eng.logPersists s.logged (mkLogRecord eng r (s.emit (Event.next r))))]
              else [])
          ++ (if ex.m_partitionColumn ≠ -1 then
                [Event.isLocalSite (r.getNValue ex.m_partitionColumn) true]
              else [])
          ++ [Event.targetInsert r false] := by
  have hl : ex.m_partitionColumn = -1
      ∨ eng.isLocalSite (r.getNValue ex.m_partitionColumn) = true := by
    simpa [isLocalTuple] using hloc
  rw [processTuple_eq]
  simp only [insertTuples_eq, ExecState.emit, logTuple]
  by_cases hpc : ex.m_partitionColumn = -1
  · by_cases hk : s.targetTable.kind = TableKind.PersistentTable <;>
      simp [hpc, hk, hrej]
  · have hls : eng.isLocalSite (r.getNValue ex.m_partitionColumn) = true := by
      rcases hl with h | h
      · exact absurd h hpc
      · exact h
    by_cases hk : s.targetTable.kind = TableKind.PersistentTable <;>
      simp [hpc, hk, hrej, hls]

/-- The loop body fetches no row of its own. -/
theorem processTuple_fetched (ex : InsertExecutor) (eng : VoltDBEngine) (t : TableTuple)
    (s : ExecState) :
    fetchedOf (processTuple ex eng t s).2.trace = fetchedOf s.trace := by
  rw [processTuple_eq]
  simp only [insertTuples_eq, ExecState.emit, logTuple]
  split_ifs <;> simp [fetchedOf_append, fetchedOf]

/-- A loop that runs to the end of its rows has fetched each of them once, in
order. -/
theorem insertLoop_fetched_of_true (ex : InsertExecutor) (eng : VoltDBEngine)
    (rows : List TableTuple) (s : ExecState) (h : (insertLoop ex eng rows s).1 = true) :
    fetchedOf (insertLoop ex eng rows s).2.trace = fetchedOf s.trace ++ rows := by
  induction rows generalizing s with
  | nil => simp [insertLoop]
  | cons t rest ih =>
    rw [insertLoop_cons] at h ⊢
    by_cases hp : (processTuple ex eng t (s.emit (Event.next t))).1 = true
    · simp only [hp, if_true] at h ⊢
      rw [ih _ h, processTuple_fetched]
      simp [ExecState.emit, fetchedOf_append, fetchedOf]
    · simp [hp] at h

/-- C9: when the rows `pre` have been processed without abort, leaving the
state `s1`, and the target table rejects the next row `r`, which passed the
partition check, the function returns false at once.  Both tables hold the
rows of `pre` that passed the partition check and nothing more, the local
counter is their number and `m_tuplesModified` is untouched; the rows fetched
are those of `pre` and `r`; and the trace is that of `pre` followed by the
events of `r` up to the rejected insertion, so that no row of `post` is
fetched, logged, checked or inserted. -/
theorem C9_target_rejection_aborts (flags : BuildFlags) (ex : InsertExecutor)
    (eng : VoltDBEngine) (pre post : List TableTuple) (r : TableTuple) (s1 : ExecState)
    (hbatch : ex.m_inputTable.tuples = pre ++ r :: post)
    (hpre : insertLoop ex eng pre (initialState ex eng) = (true, s1))
    (hloc : isLocalTuple ex eng r = true)
    (hrej : s1.targetTable.accepts s1.targetTable.tuples r = false) :
    (ex.p_execute flags eng).map Outcome.status = some false
      ∧ (ex.p_execute flags eng).map (fun o => o.targetTable.tuples)
        = some (ex.m_targetTable.tuples ++ pre.filter (isLocalTuple ex eng))
      ∧ (ex.p_execute flags eng).map (fun o => o.outputTable.tuples)
        = some (ex.outputTable.tuples ++ pre.filter (isLocalTuple ex eng))
      ∧ (ex.p_execute flags eng).map Outcome.modifiedTuples
        = some ((pre.filter (isLocalTuple ex eng)).length : Int)
      ∧ (ex.p_execute flags eng).map (fun o => o.engine.m_tuplesModified)
        = some eng.m_tuplesModified
      ∧ (ex.p_execute flags eng).map (fun o => fetchedOf o.trace) = some (pre ++ [r])
      ∧ (ex.p_execute flags eng).map Outcome.trace
        = some (s1.trace ++ [Event.next r]
            ++ (if s1.targetTable.kind = TableKind.PersistentTable then
                  [Event.log (mkLogRecord eng r (s1.emit (Event.next r)))
                    (eng.logPersists s1.logged (mkLogRecord eng r (s1.emit (Event.next r))))]
                else [])
            ++ (if ex.m_partitionColumn ≠ -1 then
                  [Event.isLocalSite (r.getNValue ex.m_partitionColumn) true]
                else [])
            ++ [Event.targetInsert r false]) := by
  have hne : ex.m_inputTable.tuples ≠ [] := by rw [hbatch]; simp
  have h1 : (insertLoop ex eng pre (initialState ex eng)).1 = true := by rw [hpre]
  have h2 : (insertLoop ex eng pre (initialState ex eng)).2 = s1 := by rw [hpre]
  obtain ⟨a1, a2, a3⟩ := insertLoop_of_true ex eng pre (initialState ex eng) h1
  have a4 := insertLoop_fetched_of_true ex eng pre (initialState ex eng) h1
  rw [h2] at a1 a2 a3 a4
  obtain ⟨b1, b2, b3, b4, b5⟩ := processTuple_target_rejects ex eng r s1 hloc hrej
  have hloop : insertLoop ex eng ex.m_inputTable.tuples (initialState ex eng)
      = (false, (processTuple ex eng r (s1.emit (Event.next r))).2) := by
    rw [hbatch, insertLoop_append, if_pos h1, h2, insertLoop_cons, if_neg (by simp [b1])]
  have hf : fetchedOf (processTuple ex eng r (s1.emit (Event.next r))).2.trace
      = pre ++ [r] := by
    rw [processTuple_fetched]
    simp [ExecState.emit, fetchedOf_append, fetchedOf, a4, initialState]
  rw [p_execute_of_nonempty flags ex eng hne, hloop]
  simp only [Option.map_some', b2, b3, b4, hf, a1, a2, a3]
  rw [b5]
  simp [initialState]

/-- C9 at a run of four rows against a target that takes one row: the first row
is committed, the second is skipped as non-local, the third is rejected by the
target, and the fourth is never fetched. -/
theorem C9_target_rejection_aborts_witness :
    ((boundedExecutor 0 true 1 5 [row 2 10, row 1 20, row 4 30, row 6 40]).p_execute
        releaseBuild (sampleEngine true)).map Outcome.status = some false
      ∧ ((boundedExecutor 0 true 1 5 [row 2 10, row 1 20, row 4 30, row 6 40]).p_execute
        releaseBuild (sampleEngine true)).map (fun o => o.targetTable.tuples)
        = some [row 2 10]
      ∧ ((boundedExecutor 0 true 1 5 [row 2 10, row 1 20, row 4 30, row 6 40]).p_execute
        releaseBuild (sampleEngine true)).map (fun o => o.outputTable.tuples)
        = some [row 2 10]
      ∧ ((boundedExecutor 0 true 1 5 [row 2 10, row 1 20, row 4 30, row 6 40]).p_execute
        releaseBuild (sampleEngine true)).map (fun o => o.engine.m_tuplesModified)
        = some 10
      ∧ ((boundedExecutor 0 true 1 5 [row 2 10, row 1 20, row 4 30, row 6 40]).p_execute
        releaseBuild (sampleEngine true)).map (fun o => fetchedOf o.trace)
        = some [row 2 10, row 1 20, row 4 30] :=
  have h := C9_target_rejection_aborts releaseBuild
    (boundedExecutor 0 true 1 5 [row 2 10, row 1 20, row 4 30, row 6 40])
    (sampleEngine true) [row 2 10, row 1 20] [row 6 40] (row 4 30)
    (insertLoop (boundedExecutor 0 true 1 5 [row 2 10, row 1 20, row 4 30, row 6 40])
      (sampleEngine true) [row 2 10, row 1 20]
      (initialState (boundedExecutor 0 true 1 5 [row 2 10, row 1 20, row 4 30, row 6 40])
        (sampleEngine true))).2
    rfl rfl (by decide) (by decide)
  ⟨h.1, h.2.1, h.2.2.1, h.2.2.2.2.1, h.2.2.2.2.2.1⟩

/-- What `p_init` binds when it succeeds on a plan node with the target given. -/
theorem p_init_eq_some (node : InsertPlanNode) (target : Table) (ex : InsertExecutor)
    (hnode : node.targetTable = some target) (hinit : InsertExecutor.p_init node = some ex) :
    node.inputTables = [ex.m_inputTable]
      ∧ ex.m_inputTable.kind = TableKind.TempTable
      ∧ ex.m_targetTable = target
      ∧ ex.outputTable
        = getCopiedTempTable ex.m_inputTable.name ex.m_inputTable node.outputAccepts
      ∧ ex.m_partitionColumn
        = (if target.kind = TableKind.PersistentTable then target.partitionColumn else -1)
      ∧ ex.m_partitionColumnIsString
        = (decide (target.kind = TableKind.PersistentTable)
            && decide (target.partitionColumn ≠ -1)
            && decide (ex.m_inputTable.columnType target.partitionColumn
                = ValueType.VALUE_TYPE_VARCHAR))
      ∧ ex.m_multiPartition = node.multiPartition := by
  unfold InsertExecutor.p_init at hinit
  rw [hnode] at hinit
  rcases hl : node.inputTables with _ | ⟨input, _ | ⟨x, rest⟩⟩
  · rw [hl] at hinit; simp at hinit
  · rw [hl] at hinit
    by_cases h1 : input.kind = TableKind.TempTable
    · by_cases h2 : target.kind ≠ TableKind.PersistentTable
          ∧ target.kind ≠ TableKind.StreamedTable
      · simp [h1, h2] at hinit
      · simp only [h1, h2, ne_eq, not_true_eq_false, if_false, Option.some.injEq] at hinit
        subst hinit
        by_cases hk : target.kind = TableKind.PersistentTable
        · by_cases hp : target.partitionColumn = -1 <;> simp [hk, hp, h1]
        · simp [hk, h1]
    · simp [h1] at hinit
  · rw [hl] at hinit; simp at hinit

/-- Against a target that is not persistent the loop body hands nothing to the
sink. -/
theorem processTuple_no_log (ex : InsertExecutor) (eng : VoltDBEngine) (t : TableTuple)
    (s : ExecState) (hk : s.targetTable.kind ≠ TableKind.PersistentTable) :
    (processTuple ex eng t s).2.logged = s.logged
      ∧ logRecordsOf (processTuple ex eng t s).2.trace = logRecordsOf s.trace := by
  rw [processTuple_eq]
  simp only [insertTuples_eq, ExecState.emit, logTuple, hk, if_false]
  split_ifs <;> simp [logRecordsOf_append, logRecordsOf]

/-- Against a target that is not persistent the loop hands nothing to the
sink. -/
theorem insertLoop_no_log (ex : InsertExecutor) (eng : VoltDBEngine)
    (rows : List TableTuple) (s : ExecState)
    (hk : s.targetTable.kind ≠ TableKind.PersistentTable) :
    (insertLoop ex eng rows s).2.logged = s.logged
      ∧ logRecordsOf (insertLoop ex eng rows s).2.trace = logRecordsOf s.trace := by
  induction rows generalizing s with
  | nil => simp [insertLoop]
  | cons t rest ih =>
    rw [insertLoop_cons]
    obtain ⟨h1, h2⟩ := processTuple_no_log ex eng t (s.emit (Event.next t)) hk
    have h3 : logRecordsOf (s.emit (Event.next t)).trace = logRecordsOf s.trace := by
      simp [ExecState.emit, logRecordsOf_append, logRecordsOf]
    have hk1 : (processTuple ex eng t (s.emit (Event.next t))).2.targetTable.kind
        ≠ TableKind.PersistentTable := by
      rw [(processTuple_frame ex eng t (s.emit (Event.next t))).1]; exact hk
    by_cases h : (processTuple ex eng t (s.emit (Event.next t))).1 = true
    · simp only [h, if_true]
      obtain ⟨i1, i2⟩ := ih _ hk1
      exact ⟨i1.trans h1, i2.trans (h2.trans h3)⟩
    · simp only [h, if_false]
      exact ⟨h1, h2.trans h3⟩

/-- Without a partition column the loop body asks the ownership oracle
nothing. -/
theorem processTuple_no_query (ex : InsertExecutor) (eng : VoltDBEngine) (t : TableTuple)
    (s : ExecState) (hpc : ex.m_partitionColumn = -1) :
    oracleQueriesOf (processTuple ex eng t s).2.trace = oracleQueriesOf s.trace := by
  rw [processTuple_eq]
  simp only [insertTuples_eq, ExecState.emit, logTuple, hpc, if_true]
  split_ifs <;> simp [oracleQueriesOf_append, oracleQueriesOf]

/-- Without a partition column the loop asks the ownership oracle nothing. -/
theorem insertLoop_no_query (ex : InsertExecutor) (eng : VoltDBEngine)
    (rows : List TableTuple) (s : ExecState) (hpc : ex.m_partitionColumn = -1) :
    oracleQueriesOf (insertLoop ex eng rows s).2.trace = oracleQueriesOf s.trace := by
  induction rows generalizing s with
  | nil => simp [insertLoop]
  | cons t rest ih =>
    rw [insertLoop_cons]
    have h2 := processTuple_no_query ex eng t (s.emit (Event.next t)) hpc
    have h3 : oracleQueriesOf (s.emit (Event.next t)).trace = oracleQueriesOf s.trace := by
      simp [ExecState.emit, oracleQueriesOf_append, oracleQueriesOf]
    by_cases h : (processTuple ex eng t (s.emit (Event.next t))).1 = true
    · simp only [h, if_true]
      exact (ih _).trans (h2.trans h3)
    · simp only [h, if_false]
      exact h2.trans h3

/-- C10: when `p_init` has bound a streamed target, a non-empty batch over
accepting tables makes `p_execute` return true with every row of the batch
appended to the target table and to the (initially empty) output table and
counted in `m_tuplesModified`; the run hands no record to the sink and asks
the ownership oracle nothing. -/
theorem C10_streamed_target_is_not_logged_nor_checked (flags : BuildFlags)
    (node : InsertPlanNode) (target : Table) (ex : InsertExecutor) (eng : VoltDBEngine)
    (hnode : node.targetTable = some target) (hk : target.kind = TableKind.StreamedTable)
    (hinit : InsertExecutor.p_init node = some ex)
    (hne : ex.m_inputTable.tuples ≠ [])
    (ht : ∀ rows r, target.accepts rows r = true)
    (ho : ∀ rows r, node.outputAccepts rows r = true) :
    (ex.p_execute flags eng).map Outcome.status = some true
      ∧ (ex.p_execute flags eng).map (fun o => o.targetTable.tuples)
        = some (target.tuples ++ ex.m_inputTable.tuples)
      ∧ (ex.p_execute flags eng).map (fun o => o.outputTable.tuples)
        = some ex.m_inputTable.tuples
      ∧ (ex.p_execute flags eng).map (fun o => o.engine.m_tuplesModified)
        = some (eng.m_tuplesModified + ex.m_inputTable.tuples.length)
      ∧ (ex.p_execute flags eng).map (fun o => logRecordsOf o.trace) = some []
      ∧ (ex.p_execute flags eng).map (fun o => o.engine.logged) = some eng.logged
      ∧ (ex.p_execute flags eng).map (fun o => oracleQueriesOf o.trace) = some [] := by
  obtain ⟨_, _, e3, e4, e5, _, _⟩ := p_init_eq_some node target ex hnode hinit
  have hpc : ex.m_partitionColumn = -1 := by rw [e5, hk]; simp
  have hkind : (initialState ex eng).targetTable.kind ≠ TableKind.PersistentTable := by
    simp [initialState, e3, hk]
  have htx : ∀ rows r, ex.m_targetTable.accepts rows r = true := by rw [e3]; exact ht
  have hox : ∀ rows r, ex.outputTable.accepts rows r = true := by
    rw [e4]; exact ho
  obtain ⟨c1, c2, c3, c4⟩ :=
    p_execute_no_column_accepting flags ex eng hne hpc htx hox
  obtain ⟨l1, l2⟩ := insertLoop_no_log ex eng ex.m_inputTable.tuples (initialState ex eng) hkind
  have q1 := insertLoop_no_query ex eng ex.m_inputTable.tuples (initialState ex eng) hpc
  refine ⟨c1, ?_, ?_, c4, ?_, ?_, ?_⟩
  · rw [c2, e3]
  · rw [c3, e4]; simp [getCopiedTempTable]
  · rw [p_execute_of_nonempty flags ex eng hne]
    simpa [initialState, logRecordsOf] using l2
  · rw [p_execute_of_nonempty flags ex eng hne]
    simpa [initialState] using l1
  · rw [p_execute_of_nonempty flags ex eng hne]
    simpa [initialState, oracleQueriesOf] using q1

/-- C10 at a streamed target and a batch of three rows. -/
theorem C10_streamed_target_is_not_logged_nor_checked_witness :
    ((sampleExecutor TableKind.StreamedTable (-1) false
          [row 1 10, row 2 20, row 3 30]).p_execute releaseBuild (sampleEngine true)).map
        Outcome.status = some true
      ∧ ((sampleExecutor TableKind.StreamedTable (-1) false
          [row 1 10, row 2 20, row 3 30]).p_execute releaseBuild (sampleEngine true)).map
        (fun o => o.targetTable.tuples) = some [row 1 10, row 2 20, row 3 30]
      ∧ ((sampleExecutor TableKind.StreamedTable (-1) false
          [row 1 10, row 2 20, row 3 30]).p_execute releaseBuild (sampleEngine true)).map
        (fun o => o.outputTable.tuples) = some [row 1 10, row 2 20, row 3 30]
      ∧ ((sampleExecutor TableKind.StreamedTable (-1) false
          [row 1 10, row 2 20, row 3 30]).p_execute releaseBuild (sampleEngine true)).map
        (fun o => o.engine.m_tuplesModified) = some 13
      ∧ ((sampleExecutor TableKind.StreamedTable (-1) false
          [row 1 10, row 2 20, row 3 30]).p_execute releaseBuild (sampleEngine true)).map
        (fun o => logRecordsOf o.trace) = some []
      ∧ ((sampleExecutor TableKind.StreamedTable (-1) false
          [row 1 10, row 2 20, row 3 30]).p_execute releaseBuild (sampleEngine true)).map
        (fun o => o.engine.logged) = some []
      ∧ ((sampleExecutor TableKind.StreamedTable (-1) false
          [row 1 10, row 2 20, row 3 30]).p_execute releaseBuild (sampleEngine true)).map
        (fun o => oracleQueriesOf o.trace) = some [] :=
  C10_streamed_target_is_not_logged_nor_checked releaseBuild
    (sampleNode TableKind.StreamedTable (-1) false [row 1 10, row 2 20, row 3 30])
    (acceptingTable TableKind.StreamedTable "T" (-1) [])
    (sampleExecutor TableKind.StreamedTable (-1) false [row 1 10, row 2 20, row 3 30])
    (sampleEngine true) rfl rfl rfl (by decide) (fun _ _ => rfl) (fun _ _ => rfl)

/-- A run of `p_execute` is either the early return of the `DEBUG` build on an
empty input, which touches nothing, or the loop over the input from the
initial state. -/
theorem p_execute_cases (flags : BuildFlags) (ex : InsertExecutor) (eng : VoltDBEngine)
    (out : Outcome) (hrun : ex.p_execute flags eng = some out) :
    (out = idleOutcome ex eng ∧ ex.m_inputTable.tuples = [] ∧ flags.DEBUG = true)
      ∨ (out.status = (insertLoop ex eng ex.m_inputTable.tuples (initialState ex eng)).1
          ∧ out.targetTable
            = (insertLoop ex eng ex.m_inputTable.tuples (initialState ex eng)).2.targetTable
          ∧ out.outputTable
            = (insertLoop ex eng ex.m_inputTable.tuples (initialState ex eng)).2.outputTable
          ∧ out.trace
            = (insertLoop ex eng ex.m_inputTable.tuples (initialState ex eng)).2.trace
          ∧ out.modifiedTuples
            = (insertLoop ex eng ex.m_inputTable.tuples (initialState ex eng)).2.modifiedTuples
          ∧ out.engine.logged
            = (insertLoop ex eng ex.m_inputTable.tuples (initialState ex eng)).2.logged) := by
  unfold InsertExecutor.p_execute at hrun
  split_ifs at hrun with h1 h2
  · left
    simp only [Option.some.injEq] at hrun
    refine ⟨hrun.symm, ?_, h1.1⟩
    have := h1.2
    simpa [Table.activeTupleCount] using this
  · right
    rcases h : insertLoop ex eng ex.m_inputTable.tuples (initialState ex eng) with ⟨b, s⟩
    rw [h] at hrun
    cases b <;> simp only [Option.some.injEq] at hrun <;> rw [← hrun] <;> simp

/-- C11: after every run that returns true, the rows appended to the output
table and the rows appended to the target table are one and the same list,
position by position, and that list is the input batch restricted to the rows
that pass the partition check: each row written is a row of the batch,
unaltered and in batch order. -/
theorem C11_round_trip (flags : BuildFlags) (ex : InsertExecutor) (eng : VoltDBEngine)
    (out : Outcome) (hrun : ex.p_execute flags eng = some out)
    (hok : out.status = true) :
    out.targetTable.tuples
        = ex.m_targetTable.tuples ++ ex.m_inputTable.tuples.filter (isLocalTuple ex eng)
      ∧ out.outputTable.tuples
        = ex.outputTable.tuples ++ ex.m_inputTable.tuples.filter (isLocalTuple ex eng)
      ∧ targetAcceptedOf out.trace = ex.m_inputTable.tuples.filter (isLocalTuple ex eng)
      ∧ outputAcceptedOf out.trace = ex.m_inputTable.tuples.filter (isLocalTuple ex eng)
      ∧ ∀ t ∈ ex.m_inputTable.tuples.filter (isLocalTuple ex eng),
          t ∈ ex.m_inputTable.tuples := by
  obtain ⟨_, c2, c3, _⟩ := p_execute_coherent flags ex eng out hrun
  have hmem : ∀ t ∈ ex.m_inputTable.tuples.filter (isLocalTuple ex eng),
      t ∈ ex.m_inputTable.tuples := fun t ht => (List.mem_filter.mp ht).1
  rcases p_execute_cases flags ex eng out hrun with ⟨h1, _, _⟩ | ⟨s1, s2, s3, _, _, _⟩
  · rw [h1] at hok; simp [idleOutcome] at hok
  · rw [hok] at s1
    obtain ⟨a1, a2, _⟩ :=
      insertLoop_of_true ex eng ex.m_inputTable.tuples (initialState ex eng) s1.symm
    have e1 : out.targetTable.tuples
        = ex.m_targetTable.tuples ++ ex.m_inputTable.tuples.filter (isLocalTuple ex eng) := by
      rw [s2, a1]; rfl
    have e2 : out.outputTable.tuples
        = ex.outputTable.tuples ++ ex.m_inputTable.tuples.filter (isLocalTuple ex eng) := by
      rw [s3, a2]; rfl
    refine ⟨e1, e2, ?_, ?_, hmem⟩
    · exact List.append_cancel_left (c2.symm.trans e1)
    · exact List.append_cancel_left (c3.symm.trans e2)

/-- C11 at a run of four rows in a multi-partition plan: both tables have
received the first and the third row of the batch. -/
theorem C11_round_trip_witness :
    (runOf (sampleExecutor TableKind.PersistentTable 0 true
        [row 2 10, row 1 20, row 4 30, row 3 40]) (sampleEngine true)).targetTable.tuples
        = [row 2 10, row 4 30]
      ∧ (runOf (sampleExecutor TableKind.PersistentTable 0 true
        [row 2 10, row 1 20, row 4 30, row 3 40]) (sampleEngine true)).outputTable.tuples
        = [row 2 10, row 4 30] :=
  have h := C11_round_trip releaseBuild
    (sampleExecutor TableKind.PersistentTable 0 true
      [row 2 10, row 1 20, row 4 30, row 3 40])
    (sampleEngine true)
    (runOf (sampleExecutor TableKind.PersistentTable 0 true
      [row 2 10, row 1 20, row 4 30, row 3 40]) (sampleEngine true))
    rfl rfl
  ⟨h.1, h.2.1⟩

/-- C17: whenever a run returns false, `m_tuplesModified` has the value it had
before the call, whatever number of rows went into the two tables; when a run
returns true, it has grown by the number of rows the run appended to the
output table. -/
theorem C17_aggregate_changes_only_on_success (flags : BuildFlags) (ex : InsertExecutor)
    (eng : VoltDBEngine) (out : Outcome) (hrun : ex.p_execute flags eng = some out) :
    (out.status = false → out.engine.m_tuplesModified = eng.m_tuplesModified)
      ∧ (out.status = true →
          out.engine.m_tuplesModified
            = eng.m_tuplesModified + (outputAcceptedOf out.trace).length)
      ∧ out.outputTable.tuples = ex.outputTable.tuples ++ outputAcceptedOf out.trace := by
  obtain ⟨_, _, c3, c4⟩ := p_execute_coherent flags ex eng out hrun
  have ha := p_execute_aggregate flags ex eng out hrun
  refine ⟨?_, ?_, c3⟩
  · intro hf
    rw [hf] at ha
    simpa using ha
  · intro hs
    rw [hs, c4] at ha
    simpa using ha

/-- C17 at a run that aborts on the third of four rows, with two rows already
in both tables: the aggregate is still 10. -/
theorem C17_aggregate_changes_only_on_success_witness :
    (runOf (sampleExecutor TableKind.PersistentTable 0 false
        [row 2 10, row 4 20, row 1 30, row 6 40]) (sampleEngine true)).engine.m_tuplesModified
      = 10 :=
  (C17_aggregate_changes_only_on_success releaseBuild
    (sampleExecutor TableKind.PersistentTable 0 false
      [row 2 10, row 4 20, row 1 30, row 6 40])
    (sampleEngine true)
    (runOf (sampleExecutor TableKind.PersistentTable 0 false
      [row 2 10, row 4 20, row 1 30, row 6 40]) (sampleEngine true))
    rfl).1 rfl

/-- C18: after every run, whatever the two tables answer, the rows the output
table took are an initial segment of the rows the target table took, and the
target has at most one row more; it has exactly one row more if and only if
the run returned false on the output table rejecting that row. -/
theorem C18_output_is_initial_segment_of_target (flags : BuildFlags) (ex : InsertExecutor)
    (eng : VoltDBEngine) (out : Outcome) (hrun : ex.p_execute flags eng = some out) :
    out.targetTable.tuples = ex.m_targetTable.tuples ++ targetAcceptedOf out.trace
      ∧ out.outputTable.tuples = ex.outputTable.tuples ++ outputAcceptedOf out.trace
      ∧ (targetAcceptedOf out.trace = outputAcceptedOf out.trace
          ∨ ∃ t, targetAcceptedOf out.trace = outputAcceptedOf out.trace ++ [t])
      ∧ ∀ t, (targetAcceptedOf out.trace = outputAcceptedOf out.trace ++ [t]
          ↔ (out.status = false
              ∧ out.trace.getLast? = some (Event.outputInsert t false))) := by
  obtain ⟨_, c2, c3, _⟩ := p_execute_coherent flags ex eng out hrun
  refine ⟨c2, c3, ?_, ?_⟩
  · rcases p_execute_balanced flags ex eng out hrun with hb | ⟨_, t, h1, _⟩
    · left; exact hb.1
    · right; exact ⟨t, h1⟩
  · intro t
    rcases p_execute_balanced flags ex eng out hrun with hb | ⟨hs, t1, h1, h2⟩
    · constructor
      · intro h
        rw [hb.1] at h
        have hlen := congrArg List.length h
        simp at hlen
      · intro h
        exact absurd h.2 (hb.2 t)
    · constructor
      · intro h
        rw [h1] at h
        have ht : t1 = t := by
          have := List.append_cancel_left h
          simpa using this
        rw [← ht]
        exact ⟨hs, h2⟩
      · intro h
        have h3 := h.2
        rw [h2] at h3
        simp only [Option.some.injEq, Event.outputInsert.injEq, and_true] at h3
        rw [← h3]
        exact h1

/-- C18 at a run in which the output table, full after one row, rejects the
second: the target has taken the second row and the output table has not. -/
theorem C18_output_is_initial_segment_of_target_witness :
    targetAcceptedOf
        (runOf (boundedExecutor (-1) false 5 1 [row 1 10, row 2 20, row 3 30])
          (sampleEngine true)).trace
      = outputAcceptedOf
          (runOf (boundedExecutor (-1) false 5 1 [row 1 10, row 2 20, row 3 30])
            (sampleEngine true)).trace ++ [row 2 20] :=
  ((C18_output_is_initial_segment_of_target releaseBuild
    (boundedExecutor (-1) false 5 1 [row 1 10, row 2 20, row 3 30])
    (sampleEngine true)
    (runOf (boundedExecutor (-1) false 5 1 [row 1 10, row 2 20, row 3 30])
      (sampleEngine true))
    (by rfl)).2.2.2 (row 2 20)).mpr ⟨by rfl, by rfl⟩

/-- A run over a non-empty batch and accepting tables, in full: the value
returned, the target rows, the aggregate, and what the run leaves untouched. -/
theorem p_execute_accepting (flags : BuildFlags) (ex : InsertExecutor) (eng : VoltDBEngine)
    (out : Outcome) (hne : ex.m_inputTable.tuples ≠ [])
    (ht : ∀ rows r, ex.m_targetTable.accepts rows r = true)
    (ho : ∀ rows r, ex.outputTable.accepts rows r = true)
    (hrun : ex.p_execute flags eng = some out) :
    out.status = (ex.m_multiPartition || ex.m_inputTable.tuples.all (isLocalTuple ex eng))
      ∧ out.targetTable.tuples
        = ex.m_targetTable.tuples ++ committedRows ex eng ex.m_inputTable.tuples
      ∧ out.engine.m_tuplesModified
        = (if out.status = true then
            eng.m_tuplesModified + (committedRows ex eng ex.m_inputTable.tuples).length
          else eng.m_tuplesModified)
      ∧ out.targetTable.accepts = ex.m_targetTable.accepts
      ∧ out.engine.isLocalSite = eng.isLocalSite := by
  obtain ⟨a1, a2, _, a4⟩ :=
    insertLoop_accepting ex eng ex.m_inputTable.tuples (initialState ex eng) ht ho
  have hfr := (insertLoop_frame ex eng ex.m_inputTable.tuples (initialState ex eng)).2.2.1
  rw [p_execute_of_nonempty flags ex eng hne] at hrun
  simp only [Option.some.injEq] at hrun
  subst hrun
  refine ⟨a1, ?_, ?_, hfr, rfl⟩
  · simp only [a2, committedRows]; rfl
  · simp only [initialState] at a4 ⊢
    rw [a4]
    simp [committedRows]

/-- A run in the release build returns. -/
theorem p_execute_release_isSome (ex : InsertExecutor) (eng : VoltDBEngine) :
    ex.p_execute releaseBuild eng = some (runOf ex eng) := by
  unfold runOf InsertExecutor.p_execute
  simp only [releaseBuild, Bool.false_eq_true, false_and, if_false, not_true_eq_false]
  rcases insertLoop ex eng ex.m_inputTable.tuples (initialState ex eng) with ⟨b, s⟩
  cases b <;> simp

/-- C15 refuted as stated: in the `DEBUG` build the empty-input check of lines
121-125 makes `p_execute` return false on an empty batch. -/
theorem C15_empty_batch_fails_in_debug_build_counterexample :
    ((sampleExecutor TableKind.PersistentTable (-1) false []).p_execute debugBuild
        (sampleEngine true)).map Outcome.status = some false := by
  decide

/-- C15, as the code has it: on an empty batch, a build without `DEBUG` and
with assertions compiled out returns true from a loop that stops at the first
fetch, with count 0, nothing logged, nothing inserted and the aggregate
unchanged; a `DEBUG` build returns false before the loop, touching nothing;
and a build with assertions but without `DEBUG` stops at the assertion of
line 127. -/
theorem C15_empty_batch (flags : BuildFlags) (ex : InsertExecutor) (eng : VoltDBEngine)
    (hempty : ex.m_inputTable.tuples = []) :
    (flags.DEBUG = false → flags.NDEBUG = true →
        (ex.p_execute flags eng).map Outcome.summary
          = some (true, ex.m_targetTable.tuples, ex.outputTable.tuples, eng.logged,
              eng.m_tuplesModified, 0, []))
      ∧ (flags.DEBUG = true →
        (ex.p_execute flags eng).map Outcome.summary
          = some (false, ex.m_targetTable.tuples, ex.outputTable.tuples, eng.logged,
              eng.m_tuplesModified, 0, []))
      ∧ (flags.DEBUG = false → flags.NDEBUG = false → ex.p_execute flags eng = none) := by
  unfold InsertExecutor.p_execute
  simp only [Table.activeTupleCount, hempty, List.length_nil, insertLoop, initialState]
  refine ⟨?_, ?_, ?_⟩
  · intro h1 h2; simp [h1, h2, Outcome.summary]
  · intro h1; simp [h1, Outcome.summary]
  · intro h1 h2; simp [h1, h2]

/-- C15, as the code has it, at the release build and an empty batch. -/
theorem C15_empty_batch_witness :
    ((sampleExecutor TableKind.PersistentTable (-1) false []).p_execute releaseBuild
        (sampleEngine true)).map Outcome.summary
      = some (true, [], [], [], 10, 0, []) :=
  (C15_empty_batch releaseBuild (sampleExecutor TableKind.PersistentTable (-1) false [])
    (sampleEngine true) rfl).1 rfl rfl

/-- Without a partition column no run asks the ownership oracle anything. -/
theorem p_execute_no_query (flags : BuildFlags) (ex : InsertExecutor) (eng : VoltDBEngine)
    (out : Outcome) (hpc : ex.m_partitionColumn = -1)
    (hrun : ex.p_execute flags eng = some out) : oracleQueriesOf out.trace = [] := by
  rcases p_execute_cases flags ex eng out hrun with ⟨h1, _, _⟩ | ⟨_, _, _, s4, _, _⟩
  · rw [h1]; rfl
  · rw [s4, insertLoop_no_query ex eng _ _ hpc]; rfl

theorem adjScan_snoc (ok : Option Event → Event → Bool) (tr : List Event) (e : Event) :
    adjScan ok (tr ++ [e]) = ((adjScan ok tr).1 && ok (adjScan ok tr).2 e, some e) := by
  simp [adjScan, List.foldl_append, adjStep]

theorem adjScan_last (ok : Option Event → Event → Bool) (tr : List Event) :
    (adjScan ok tr).2 = tr.getLast? := by
  induction tr using List.reverseRecOn with
  | nil => rfl
  | append_singleton tr e _ => rw [adjScan_snoc]; simp

/-- A trace that passes the scan has every event in order with the event just
before it. -/
theorem adjScan_sound (ok : Option Event → Event → Bool) (tr : List Event)
    (h : (adjScan ok tr).1 = true) :
    ∀ pre e post, tr = pre ++ e :: post → ok pre.getLast? e = true := by
  induction tr using List.reverseRecOn with
  | nil => intro pre e post hsplit; simp at hsplit
  | append_singleton tr e0 ih =>
    rw [adjScan_snoc] at h
    simp only [Bool.and_eq_true] at h
    intro pre e post hsplit
    rcases snoc_eq_split tr pre post e0 e hsplit with ⟨_, h2, h3⟩ | ⟨post1, _, h3⟩
    · rw [← h2, ← h3, ← adjScan_last ok tr]; exact h.2
    · exact ih h.1 pre e post1 h3

/-- A property of traces that the loop body keeps, running after the fetch of
its row on a state whose target table has the kind and the name of the bound
target, is kept by the loop. -/
theorem insertLoop_trace_invariant (ex : InsertExecutor) (eng : VoltDBEngine)
    (I : List Event → Prop)
    (hstep : ∀ (t : TableTuple) (s : ExecState), s.targetTable.kind = ex.m_targetTable.kind →
      s.targetTable.name = ex.m_targetTable.name → I s.trace →
      I (processTuple ex eng t (s.emit (Event.next t))).2.trace)
    (rows : List TableTuple) (s : ExecState)
    (hk : s.targetTable.kind = ex.m_targetTable.kind)
    (hn : s.targetTable.name = ex.m_targetTable.name) (hI : I s.trace) :
    I (insertLoop ex eng rows s).2.trace := by
  induction rows generalizing s with
  | nil => exact hI
  | cons t rest ih =>
    rw [insertLoop_cons]
    have h1 := hstep t s hk hn hI
    obtain ⟨f1, f2, _, _⟩ := processTuple_frame ex eng t (s.emit (Event.next t))
    by_cases h : (processTuple ex eng t (s.emit (Event.next t))).1 = true
    · simp only [h, if_true]
      exact ih _ (f1.trans hk) (f2.trans hn) h1
    · simp only [h, if_false]
      exact h1

/-- A property of traces that holds of the empty trace and that the loop body
keeps holds of the trace of every run. -/
theorem p_execute_trace_invariant (flags : BuildFlags) (ex : InsertExecutor)
    (eng : VoltDBEngine) (I : List Event → Prop) (h0 : I [])
    (hstep : ∀ (t : TableTuple) (s : ExecState), s.targetTable.kind = ex.m_targetTable.kind →
      s.targetTable.name = ex.m_targetTable.name → I s.trace →
      I (processTuple ex eng t (s.emit (Event.next t))).2.trace)
    (out : Outcome) (hrun : ex.p_execute flags eng = some out) : I out.trace := by
  rcases p_execute_cases flags ex eng out hrun with ⟨h1, _, _⟩ | ⟨_, _, _, s4, _, _⟩
  · rw [h1]; exact h0
  · rw [s4]
    exact insertLoop_trace_invariant ex eng I hstep _ (initialState ex eng) rfl rfl h0

/-- The loop body keeps the check on hand-offs to the sink. -/
theorem processTuple_okLog (ex : InsertExecutor) (eng : VoltDBEngine) (t : TableTuple)
    (s : ExecState) (hn : s.targetTable.name = ex.m_targetTable.name)
    (hs : (adjScan (okLog eng.currentTxnId eng.siteId ex.m_targetTable.name) s.trace).1
      = true) :
    (adjScan (okLog eng.currentTxnId eng.siteId ex.m_targetTable.name)
      (processTuple ex eng t (s.emit (Event.next t))).2.trace).1 = true := by
  unfold adjScan at hs ⊢
  rw [processTuple_eq]
  simp only [insertTuples_eq, ExecState.emit, logTuple]
  split_ifs <;>
    simp [List.foldl_append, adjStep, okLog, hs, mkLogRecord, insertRecord, hn]

theorem okLog_log (txnId siteId : Int) (tableName : String) (last : Option Event)
    (logrecord : LogRecord) (persisted : Bool)
    (h : okLog txnId siteId tableName last (Event.log logrecord persisted) = true) :
    ∃ t, last = some (Event.next t)
      ∧ logrecord = insertRecord logrecord.timestamp txnId siteId tableName t := by
  cases last with
  | none => simp [okLog] at h
  | some e =>
    cases e with
    | next t => exact ⟨t, rfl, by simpa [okLog] using h⟩
    | _ => simp [okLog] at h

theorem getLast?_eq_some_snoc {α : Type} (l : List α) (a : α) (h : l.getLast? = some a) :
    ∃ l1, l = l1 ++ [a] := by
  rcases List.eq_nil_or_concat l with rfl | ⟨l1, b, rfl⟩
  · simp at h
  · rw [List.concat_eq_append] at h ⊢
    simp only [List.getLast?_append, List.getLast?_singleton, Option.or_some,
      Option.some.injEq] at h
    exact ⟨l1, by rw [h]⟩

/-- C13: in every run, each record handed to the sink comes right after the
fetch of a row `t`, the current row, and is an insert record of the running
system with the transaction id and the site id of the engine, the name of
the target table, `t` as after-image, no before-image, no primary key and no
column mask (`numCols = -1`, no list of modified columns); and the records
the sink received in the run are those hand-offs. -/
theorem C13_log_record_fields (flags : BuildFlags) (ex : InsertExecutor)
    (eng : VoltDBEngine) (out : Outcome) (hrun : ex.p_execute flags eng = some out) :
    (∀ pre logrecord persisted post,
        out.trace = pre ++ Event.log logrecord persisted :: post →
        ∃ pre1 t, pre = pre1 ++ [Event.next t]
          ∧ logrecord.type = LogRecordType.T_INSERT
          ∧ logrecord.category = LogRecordCategory.T_FORWARD
          ∧ logrecord.txnId = eng.currentTxnId
          ∧ logrecord.siteId = eng.siteId
          ∧ logrecord.tableName = ex.m_targetTable.name
          ∧ logrecord.afterImage = some t
          ∧ logrecord.beforeImage = none
          ∧ logrecord.primaryKey = none
          ∧ logrecord.modifiedCols = none
          ∧ logrecord.numCols = -1
          ∧ logrecord.prevLsn = -1)
      ∧ out.engine.logged = eng.logged ++ logRecordsOf out.trace := by
  obtain ⟨c1, _, _, _⟩ := p_execute_coherent flags ex eng out hrun
  refine ⟨?_, c1⟩
  have hscan := p_execute_trace_invariant flags ex eng
    (fun tr => (adjScan (okLog eng.currentTxnId eng.siteId ex.m_targetTable.name) tr).1 = true)
    rfl (fun t s _ hn hs => processTuple_okLog ex eng t s hn hs) out hrun
  intro pre logrecord persisted post hsplit
  obtain ⟨t, h1, h2⟩ := okLog_log _ _ _ _ _ _
    (adjScan_sound _ out.trace hscan pre _ post hsplit)
  obtain ⟨pre1, h3⟩ := getLast?_eq_some_snoc pre _ h1
  refine ⟨pre1, t, h3, ?_⟩
  rw [h2]
  simp [insertRecord]

/-- C13 at a run of two rows against a persistent target: the record handed
over after the fetch of the first row. -/
theorem C13_log_record_fields_witness :
    ∃ pre1 t, [Event.next (row 2 10)] = pre1 ++ [Event.next t]
      ∧ (sampleRecord 1 (row 2 10)).type = LogRecordType.T_INSERT
      ∧ (sampleRecord 1 (row 2 10)).category = LogRecordCategory.T_FORWARD
      ∧ (sampleRecord 1 (row 2 10)).txnId = 7
      ∧ (sampleRecord 1 (row 2 10)).siteId = 1
      ∧ (sampleRecord 1 (row 2 10)).tableName = "T"
      ∧ (sampleRecord 1 (row 2 10)).afterImage = some t
      ∧ (sampleRecord 1 (row 2 10)).beforeImage = none
      ∧ (sampleRecord 1 (row 2 10)).primaryKey = none
      ∧ (sampleRecord 1 (row 2 10)).modifiedCols = none
      ∧ (sampleRecord 1 (row 2 10)).numCols = -1
      ∧ (sampleRecord 1 (row 2 10)).prevLsn = -1 :=
  (C13_log_record_fields releaseBuild
    (sampleExecutor TableKind.PersistentTable 0 true [row 2 10, row 1 20])
    (sampleEngine true)
    (runOf (sampleExecutor TableKind.PersistentTable 0 true [row 2 10, row 1 20])
      (sampleEngine true))
    (by rfl)).1
    [Event.next (row 2 10)] (sampleRecord 1 (row 2 10)) true
    [Event.isLocalSite (NValue.integer 2) true, Event.targetInsert (row 2 10) true,
      Event.outputInsert (row 2 10) true, Event.next (row 1 20),
      Event.log (sampleRecord 6 (row 1 20)) true, Event.isLocalSite (NValue.integer 1) false]
    (by decide)

/-- Against a persistent target the loop body hands over one record for the row
it was given, so records and fetched rows stay in step. -/
theorem processTuple_logged_fetched (ex : InsertExecutor) (eng : VoltDBEngine)
    (t : TableTuple) (s : ExecState) (hk : s.targetTable.kind = TableKind.PersistentTable)
    (hI : afterImages (logRecordsOf s.trace) = (fetchedOf s.trace).map some) :
    afterImages (logRecordsOf (processTuple ex eng t (s.emit (Event.next t))).2.trace)
      = (fetchedOf (processTuple ex eng t (s.emit (Event.next t))).2.trace).map some := by
  rw [processTuple_eq]
  simp only [afterImages] at hI ⊢
  simp only [insertTuples_eq, ExecState.emit, logTuple, hk, if_true]
  split_ifs <;>
    simp [logRecordsOf_append, fetchedOf_append, logRecordsOf, fetchedOf, hI, mkLogRecord]

/-- The loop body makes at most one insertion into the target for the row it
was given. -/
theorem processTuple_accepted_le_fetched (ex : InsertExecutor) (eng : VoltDBEngine)
    (t : TableTuple) (s : ExecState)
    (hI : (targetAcceptedOf s.trace).length ≤ (fetchedOf s.trace).length) :
    (targetAcceptedOf (processTuple ex eng t (s.emit (Event.next t))).2.trace).length
      ≤ (fetchedOf (processTuple ex eng t (s.emit (Event.next t))).2.trace).length := by
  rw [processTuple_eq]
  simp only [insertTuples_eq, ExecState.emit, logTuple]
  split_ifs <;>
    simp [targetAcceptedOf_append, fetchedOf_append, targetAcceptedOf, fetchedOf] <;> omega

/-- Against a persistent target the loop body keeps the check on ownership
queries: the query of a row comes right after the hand-off of its record. -/
theorem processTuple_okCheck (ex : InsertExecutor) (eng : VoltDBEngine) (t : TableTuple)
    (s : ExecState) (hk : s.targetTable.kind = TableKind.PersistentTable)
    (hs : (adjScan (okCheck ex.m_partitionColumn) s.trace).1 = true) :
    (adjScan (okCheck ex.m_partitionColumn)
      (processTuple ex eng t (s.emit (Event.next t))).2.trace).1 = true := by
  unfold adjScan at hs ⊢
  rw [processTuple_eq]
  simp only [insertTuples_eq, ExecState.emit, logTuple, hk, if_true]
  split_ifs <;>
    simp [List.foldl_append, adjStep, okCheck, hs, mkLogRecord]

/-- The rows the loop fetches are an initial segment of the rows it is given. -/
theorem insertLoop_fetched_initial (ex : InsertExecutor) (eng : VoltDBEngine)
    (rows : List TableTuple) (s : ExecState) :
    ∃ rest, fetchedOf s.trace ++ rows = fetchedOf (insertLoop ex eng rows s).2.trace ++ rest := by
  induction rows generalizing s with
  | nil => exact ⟨[], by simp [insertLoop]⟩
  | cons t rest ih =>
    rw [insertLoop_cons]
    have hf : fetchedOf (processTuple ex eng t (s.emit (Event.next t))).2.trace
        = fetchedOf s.trace ++ [t] := by
      rw [processTuple_fetched]
      simp [ExecState.emit, fetchedOf_append, fetchedOf]
    by_cases h : (processTuple ex eng t (s.emit (Event.next t))).1 = true
    · rw [if_pos h]
      obtain ⟨r1, hr1⟩ := ih (processTuple ex eng t (s.emit (Event.next t))).2
      refine ⟨r1, ?_⟩
      rw [← hr1, hf]; simp
    · rw [if_neg h]
      exact ⟨rest, by rw [hf]; simp⟩

theorem okCheck_query (partitionColumn : Int) (last : Option Event) (value : NValue)
    (isLocal : Bool)
    (h : okCheck partitionColumn last (Event.isLocalSite value isLocal) = true) :
    ∃ logrecord persisted t, last = some (Event.log logrecord persisted)
      ∧ logrecord.afterImage = some t ∧ value = t.getNValue partitionColumn := by
  cases last with
  | none => simp [okCheck] at h
  | some e =>
    cases e with
    | log logrecord persisted =>
      simp only [okCheck, decide_eq_true_eq, Option.map_eq_some'] at h
      obtain ⟨t, h1, h2⟩ := h
      exact ⟨logrecord, persisted, t, rfl, h1, h2.symm⟩
    | _ => simp [okCheck] at h

/-- The rows a run fetches are an initial segment of the input batch. -/
theorem p_execute_fetched_initial (flags : BuildFlags) (ex : InsertExecutor)
    (eng : VoltDBEngine) (out : Outcome) (hrun : ex.p_execute flags eng = some out) :
    ∃ rest, ex.m_inputTable.tuples = fetchedOf out.trace ++ rest := by
  rcases p_execute_cases flags ex eng out hrun with ⟨h1, h2, _⟩ | ⟨_, _, _, s4, _, _⟩
  · exact ⟨[], by rw [h1, h2]; rfl⟩
  · obtain ⟨rest, hr⟩ :=
      insertLoop_fetched_initial ex eng ex.m_inputTable.tuples (initialState ex eng)
    refine ⟨rest, ?_⟩
    rw [s4, ← hr]
    simp [initialState, fetchedOf]

/-- C19: in every run against a persistent target the sink receives exactly one
record for each row fetched, in the order of the fetches, which is the order
of the batch; the ownership query of a row comes right after the hand-off of
its record; so the records are as many as the rows fetched, and at least as
many as the rows the target accepted. -/
theorem C19_one_log_record_per_fetched_row (flags : BuildFlags) (ex : InsertExecutor)
    (eng : VoltDBEngine) (out : Outcome)
    (hk : ex.m_targetTable.kind = TableKind.PersistentTable)
    (hrun : ex.p_execute flags eng = some out) :
    afterImages (logRecordsOf out.trace) = (fetchedOf out.trace).map some
      ∧ (∃ rest, ex.m_inputTable.tuples = fetchedOf out.trace ++ rest)
      ∧ (∀ pre value isLocal post,
          out.trace = pre ++ Event.isLocalSite value isLocal :: post →
          ∃ pre1 logrecord persisted t,
            pre = pre1 ++ [Event.log logrecord persisted]
              ∧ logrecord.afterImage = some t
              ∧ value = t.getNValue ex.m_partitionColumn)
      ∧ (logRecordsOf out.trace).length = (fetchedOf out.trace).length
      ∧ (targetAcceptedOf out.trace).length ≤ (logRecordsOf out.trace).length
      ∧ out.engine.logged = eng.logged ++ logRecordsOf out.trace := by
  obtain ⟨c1, _, _, _⟩ := p_execute_coherent flags ex eng out hrun
  have h1 := p_execute_trace_invariant flags ex eng
    (fun tr => afterImages (logRecordsOf tr) = (fetchedOf tr).map some) rfl
    (fun t s hks _ hI => processTuple_logged_fetched ex eng t s (hks.trans hk) hI) out hrun
  have h2 := p_execute_trace_invariant flags ex eng
    (fun tr => (targetAcceptedOf tr).length ≤ (fetchedOf tr).length) (Nat.le_refl _)
    (fun t s _ _ hI => processTuple_accepted_le_fetched ex eng t s hI) out hrun
  have h3 := p_execute_trace_invariant flags ex eng
    (fun tr => (adjScan (okCheck ex.m_partitionColumn) tr).1 = true) rfl
    (fun t s hks _ hI => processTuple_okCheck ex eng t s (hks.trans hk) hI) out hrun
  have hlen : (logRecordsOf out.trace).length = (fetchedOf out.trace).length := by
    have := congrArg List.length h1
    simpa [afterImages] using this
  refine ⟨h1, p_execute_fetched_initial flags ex eng out hrun, ?_, hlen, ?_, c1⟩
  · intro pre value isLocal post hsplit
    obtain ⟨logrecord, persisted, t, e1, e2, e3⟩ := okCheck_query _ _ _ _
      (adjScan_sound _ out.trace h3 pre _ post hsplit)
    obtain ⟨pre1, e4⟩ := getLast?_eq_some_snoc pre _ e1
    exact ⟨pre1, logrecord, persisted, t, e4, e2, e3⟩
  · rw [hlen]; exact h2

/-- C19 at a single-partition run that aborts on the third row of four: three
rows fetched, three records handed over, two rows accepted by the target. -/
theorem C19_one_log_record_per_fetched_row_witness :
    afterImages (logRecordsOf
        (runOf (sampleExecutor TableKind.PersistentTable 0 false
          [row 2 10, row 4 20, row 1 30, row 6 40]) (sampleEngine true)).trace)
      = [some (row 2 10), some (row 4 20), some (row 1 30)] :=
  (C19_one_log_record_per_fetched_row releaseBuild
    (sampleExecutor TableKind.PersistentTable 0 false
      [row 2 10, row 4 20, row 1 30, row 6 40])
    (sampleEngine true)
    (runOf (sampleExecutor TableKind.PersistentTable 0 false
      [row 2 10, row 4 20, row 1 30, row 6 40]) (sampleEngine true))
    rfl (by rfl)).1

/-- A run that returns true has fetched the whole batch, in order. -/
theorem p_execute_fetched_of_true (flags : BuildFlags) (ex : InsertExecutor)
    (eng : VoltDBEngine) (out : Outcome) (hrun : ex.p_execute flags eng = some out)
    (hok : out.status = true) : fetchedOf out.trace = ex.m_inputTable.tuples := by
  rcases p_execute_cases flags ex eng out hrun with ⟨h1, _, _⟩ | ⟨s1, _, _, s4, _, _⟩
  · rw [h1] at hok; simp [idleOutcome] at hok
  · rw [hok] at s1
    rw [s4, insertLoop_fetched_of_true ex eng _ _ s1.symm]
    simp [initialState, fetchedOf]

/-- C4, as the code has it: against a persistent target with a partition column
and accepting tables a run over a non-empty batch returns, and the sink
receives one record for every row fetched, handed over right before that
row's ownership query, whether or not the row is local.  A multi-partition
plan fetches, and so logs, the whole batch, the skipped non-local rows
included; a single-partition plan whose rows are all local does the same; a
single-partition plan that aborts on `r`, the first non-local row of
`pre ++ r :: post`, has fetched and logged the rows of `pre` and `r` itself,
one record more than the rows it committed. -/
theorem C4_every_fetched_row_is_logged_before_its_check (flags : BuildFlags)
    (ex : InsertExecutor) (eng : VoltDBEngine) (hne : ex.m_inputTable.tuples ≠ [])
    (hk : ex.m_targetTable.kind = TableKind.PersistentTable)
    (hpc : ex.m_partitionColumn ≠ -1)
    (ht : ∀ rows r, ex.m_targetTable.accepts rows r = true)
    (ho : ∀ rows r, ex.outputTable.accepts rows r = true) :
    (ex.p_execute flags eng).isSome = true
      ∧ ∀ out, ex.p_execute flags eng = some out →
        afterImages (logRecordsOf out.trace) = (fetchedOf out.trace).map some
          ∧ out.engine.logged = eng.logged ++ logRecordsOf out.trace
          ∧ (∀ pre value isLocal post,
              out.trace = pre ++ Event.isLocalSite value isLocal :: post →
              ∃ pre1 logrecord persisted t,
                pre = pre1 ++ [Event.log logrecord persisted]
                  ∧ logrecord.afterImage = some t
                  ∧ value = t.getNValue ex.m_partitionColumn)
          ∧ (ex.m_multiPartition = true →
              fetchedOf out.trace = ex.m_inputTable.tuples
                ∧ out.targetTable.tuples
                  = ex.m_targetTable.tuples ++ ex.m_inputTable.tuples.filter
                      (fun t => eng.isLocalSite (t.getNValue ex.m_partitionColumn)))
          ∧ (ex.m_multiPartition = false →
              (∀ t ∈ ex.m_inputTable.tuples,
                eng.isLocalSite (t.getNValue ex.m_partitionColumn) = true) →
              fetchedOf out.trace = ex.m_inputTable.tuples
                ∧ out.targetTable.tuples
                  = ex.m_targetTable.tuples ++ ex.m_inputTable.tuples)
          ∧ (ex.m_multiPartition = false → ∀ pre r post,
              ex.m_inputTable.tuples = pre ++ r :: post →
              (∀ t ∈ pre, eng.isLocalSite (t.getNValue ex.m_partitionColumn) = true) →
              eng.isLocalSite (r.getNValue ex.m_partitionColumn) = false →
              fetchedOf out.trace = pre ++ [r]
                ∧ out.targetTable.tuples = ex.m_targetTable.tuples ++ pre) := by
  refine ⟨by rw [p_execute_of_nonempty flags ex eng hne]; rfl, ?_⟩
  intro out hrun
  obtain ⟨c1, _, _, _⟩ := p_execute_coherent flags ex eng out hrun
  obtain ⟨a1, a2, _, _, _⟩ := p_execute_accepting flags ex eng out hne ht ho hrun
  have hloc := isLocalTuple_of_column ex eng hpc
  have h1 := p_execute_trace_invariant flags ex eng
    (fun tr => afterImages (logRecordsOf tr) = (fetchedOf tr).map some) rfl
    (fun t s hks _ hI => processTuple_logged_fetched ex eng t s (hks.trans hk) hI) out hrun
  have h3 := p_execute_trace_invariant flags ex eng
    (fun tr => (adjScan (okCheck ex.m_partitionColumn) tr).1 = true) rfl
    (fun t s hks _ hI => processTuple_okCheck ex eng t s (hks.trans hk) hI) out hrun
  refine ⟨h1, c1, ?_, ?_, ?_, ?_⟩
  · intro pre value isLocal post hsplit
    obtain ⟨logrecord, persisted, t, e1, e2, e3⟩ := okCheck_query _ _ _ _
      (adjScan_sound _ out.trace h3 pre _ post hsplit)
    obtain ⟨pre1, e4⟩ := getLast?_eq_some_snoc pre _ e1
    exact ⟨pre1, logrecord, persisted, t, e4, e2, e3⟩
  · intro hmp
    rw [hmp, Bool.true_or] at a1
    refine ⟨p_execute_fetched_of_true flags ex eng out hrun a1, ?_⟩
    rw [a2, committedRows, hmp, if_pos rfl, hloc]
  · intro hmp hall
    have hall1 : ∀ t ∈ ex.m_inputTable.tuples, isLocalTuple ex eng t = true := by
      intro t htm; rw [hloc]; exact hall t htm
    rw [List.all_eq_true.mpr hall1, Bool.or_true] at a1
    refine ⟨p_execute_fetched_of_true flags ex eng out hrun a1, ?_⟩
    rw [a2, committedRows, hmp, if_neg (by simp), List.takeWhile_eq_self_iff.mpr hall1]
  · intro hmp pre r post hsplit hpre hr
    obtain ⟨b1, b2⟩ := (p_execute_logged_accepting flags ex eng hne hk hpc ht ho).2 hmp
      pre r post hsplit hpre hr
    rw [hrun] at b1 b2
    simp only [Option.map_some', Option.some.injEq] at b1 b2
    refine ⟨?_, b2⟩
    rw [c1, afterImages_append] at b1
    have b3 := List.append_cancel_left b1
    rw [h1] at b3
    exact List.map_injective_iff.mpr (Option.some_injective _) b3

/-- C4, as the code has it, at the scenario of four rows of which the third is
not local, in a single-partition plan: three rows fetched and logged, two
rows committed. -/
theorem C4_every_fetched_row_is_logged_before_its_check_witness :
    fetchedOf (runOf (sampleExecutor TableKind.PersistentTable 0 false
        [row 2 10, row 4 20, row 1 30, row 6 40]) (sampleEngine true)).trace
        = [row 2 10, row 4 20] ++ [row 1 30]
      ∧ (runOf (sampleExecutor TableKind.PersistentTable 0 false
        [row 2 10, row 4 20, row 1 30, row 6 40]) (sampleEngine true)).targetTable.tuples
        = [] ++ [row 2 10, row 4 20] :=
  ((C4_every_fetched_row_is_logged_before_its_check releaseBuild
    (sampleExecutor TableKind.PersistentTable 0 false
      [row 2 10, row 4 20, row 1 30, row 6 40])
    (sampleEngine true) (by decide) rfl (by decide) (fun _ _ => rfl) (fun _ _ => rfl)).2
    (runOf (sampleExecutor TableKind.PersistentTable 0 false
      [row 2 10, row 4 20, row 1 30, row 6 40]) (sampleEngine true))
    (by rfl)).2.2.2.2.2 rfl
    [row 2 10, row 4 20] (row 1 30) [row 6 40] rfl (by decide) (by decide)

/-- C12 refuted as stated: a single-partition plan commits the first two rows
of a batch of three and aborts on the third; run a second time against the
target as the first run left it, it commits the two rows again, so the target
holds two copies of each, but `m_tuplesModified` still has the value 10 it
had before the first run: it has not grown by twice the count of 2. -/
theorem C12_aborted_runs_leave_the_aggregate_counterexample :
    ((sampleExecutor TableKind.PersistentTable 0 false
          [row 2 10, row 4 20, row 1 30]).p_execute releaseBuild (sampleEngine true)).map
        (fun o => (o.status, o.targetTable.tuples, o.modifiedTuples,
          o.engine.m_tuplesModified))
        = some (false, [row 2 10, row 4 20], 2, 10)
      ∧ (InsertExecutor.p_execute releaseBuild
          { sampleExecutor TableKind.PersistentTable 0 false
              [row 2 10, row 4 20, row 1 30] with
            m_targetTable :=
              (runOf (sampleExecutor TableKind.PersistentTable 0 false
                [row 2 10, row 4 20, row 1 30]) (sampleEngine true)).targetTable
            outputTable := acceptingTable TableKind.TempTable "input" (-1) [] }
          (runOf (sampleExecutor TableKind.PersistentTable 0 false
            [row 2 10, row 4 20, row 1 30]) (sampleEngine true)).engine).map
        (fun o => (o.status, o.targetTable.tuples, o.modifiedTuples,
          o.engine.m_tuplesModified))
        = some (false, [row 2 10, row 4 20, row 2 10, row 4 20], 2, 10)
      ∧ (sampleEngine true).m_tuplesModified = 10 := by
  decide

/-- C12, as the code has it: over accepting tables, a second run of the same
non-empty batch against the target table as the first run left it (and any
accepting output table) returns what the first run returned and appends the
committed rows `c` of the first run once more, so the target ends with two
copies of them.  When the runs return true, each adds the number of committed
rows to `m_tuplesModified`, which ends grown by twice that number; when they
return false, neither run changes it. -/
theorem C12_second_run_inserts_again (flags : BuildFlags) (ex : InsertExecutor)
    (eng : VoltDBEngine) (out1 : Outcome) (output2 : Table) (c : List TableTuple)
    (hne : ex.m_inputTable.tuples ≠ [])
    (ht : ∀ rows r, ex.m_targetTable.accepts rows r = true)
    (ho : ∀ rows r, ex.outputTable.accepts rows r = true)
    (ho2 : ∀ rows r, output2.accepts rows r = true)
    (hrun1 : ex.p_execute flags eng = some out1)
    (hc : out1.targetTable.tuples = ex.m_targetTable.tuples ++ c) :
    (InsertExecutor.p_execute flags
          { ex with m_targetTable := out1.targetTable, outputTable := output2 }
          out1.engine).map (fun o => o.targetTable.tuples)
        = some (ex.m_targetTable.tuples ++ c ++ c)
      ∧ (InsertExecutor.p_execute flags
          { ex with m_targetTable := out1.targetTable, outputTable := output2 }
          out1.engine).map Outcome.status = some out1.status
      ∧ (out1.status = true →
          out1.engine.m_tuplesModified = eng.m_tuplesModified + c.length
            ∧ (InsertExecutor.p_execute flags
                { ex with m_targetTable := out1.targetTable, outputTable := output2 }
                out1.engine).map (fun o => o.engine.m_tuplesModified)
              = some (eng.m_tuplesModified + 2 * c.length))
      ∧ (out1.status = false →
          out1.engine.m_tuplesModified = eng.m_tuplesModified
            ∧ (InsertExecutor.p_execute flags
                { ex with m_targetTable := out1.targetTable, outputTable := output2 }
                out1.engine).map (fun o => o.engine.m_tuplesModified)
              = some eng.m_tuplesModified) := by
  obtain ⟨out2, hrun2⟩ : ∃ out2, InsertExecutor.p_execute flags
      { ex with m_targetTable := out1.targetTable, outputTable := output2 } out1.engine
      = some out2 :=
    ⟨_, p_execute_of_nonempty flags
      { ex with m_targetTable := out1.targetTable, outputTable := output2 } out1.engine hne⟩
  obtain ⟨a1, a2, a3, a4, a5⟩ := p_execute_accepting flags ex eng out1 hne ht ho hrun1
  have hloc : isLocalTuple
      { ex with m_targetTable := out1.targetTable, outputTable := output2 } out1.engine
      = isLocalTuple ex eng := by
    funext t
    simp only [isLocalTuple, a5]
  have hcr : committedRows
      { ex with m_targetTable := out1.targetTable, outputTable := output2 } out1.engine
        ex.m_inputTable.tuples
      = committedRows ex eng ex.m_inputTable.tuples := by
    simp only [committedRows, hloc]
  obtain ⟨b1, b2, b3, _, _⟩ := p_execute_accepting flags
    { ex with m_targetTable := out1.targetTable, outputTable := output2 } out1.engine out2
    hne (by intro rows r; simp only [a4]; exact ht rows r) ho2 hrun2
  rw [hloc] at b1
  rw [hcr] at b2 b3
  simp only at b1 b2 b3
  have hc1 : committedRows ex eng ex.m_inputTable.tuples = c :=
    List.append_cancel_left (a2.symm.trans hc)
  have hst : out2.status = out1.status := b1.trans a1.symm
  rw [hc1] at a3 b3
  rw [hrun2]
  simp only [Option.map_some', Option.some.injEq]
  refine ⟨?_, hst, ?_, ?_⟩
  · rw [b2, hc, hc1]
  · intro hs
    rw [hst, hs] at b3
    rw [hs] at a3
    simp only [if_true] at a3 b3
    refine ⟨a3, ?_⟩
    rw [b3, a3]; ring
  · intro hs
    rw [hst, hs] at b3
    rw [hs] at a3
    simp only [Bool.false_eq_true, if_false] at a3 b3
    exact ⟨a3, b3.trans a3⟩

/-- C12, as the code has it, at two batches run twice: a batch of two rows
without partition column, whose runs return true and leave the aggregate at
14 = 10 + 2 * 2, and a single-partition batch that aborts on its third row,
whose runs leave the target with its two committed rows twice and the
aggregate at 10. -/
theorem C12_second_run_inserts_again_witness :
    ((InsertExecutor.p_execute releaseBuild
        { sampleExecutor TableKind.PersistentTable (-1) false [row 1 10, row 2 20] with
          m_targetTable :=
            (runOf (sampleExecutor TableKind.PersistentTable (-1) false [row 1 10, row 2 20])
              (sampleEngine true)).targetTable
          outputTable := acceptingTable TableKind.TempTable "input" (-1) [] }
        (runOf (sampleExecutor TableKind.PersistentTable (-1) false [row 1 10, row 2 20])
          (sampleEngine true)).engine).map (fun o => o.targetTable.tuples)
        = some [row 1 10, row 2 20, row 1 10, row 2 20]
      ∧ (InsertExecutor.p_execute releaseBuild
        { sampleExecutor TableKind.PersistentTable (-1) false [row 1 10, row 2 20] with
          m_targetTable :=
            (runOf (sampleExecutor TableKind.PersistentTable (-1) false [row 1 10, row 2 20])
              (sampleEngine true)).targetTable
          outputTable := acceptingTable TableKind.TempTable "input" (-1) [] }
        (runOf (sampleExecutor TableKind.PersistentTable (-1) false [row 1 10, row 2 20])
          (sampleEngine true)).engine).map (fun o => o.engine.m_tuplesModified)
        = some 14)
      ∧ ((InsertExecutor.p_execute releaseBuild
        { sampleExecutor TableKind.PersistentTable 0 false
            [row 2 10, row 4 20, row 1 30] with
          m_targetTable :=
            (runOf (sampleExecutor TableKind.PersistentTable 0 false
              [row 2 10, row 4 20, row 1 30]) (sampleEngine true)).targetTable
          outputTable := acceptingTable TableKind.TempTable "input" (-1) [] }
        (runOf (sampleExecutor TableKind.PersistentTable 0 false
          [row 2 10, row 4 20, row 1 30]) (sampleEngine true)).engine).map
          (fun o => o.targetTable.tuples)
        = some [row 2 10, row 4 20, row 2 10, row 4 20]
      ∧ (InsertExecutor.p_execute releaseBuild
        { sampleExecutor TableKind.PersistentTable 0 false
            [row 2 10, row 4 20, row 1 30] with
          m_targetTable :=
            (runOf (sampleExecutor TableKind.PersistentTable 0 false
              [row 2 10, row 4 20, row 1 30]) (sampleEngine true)).targetTable
          outputTable := acceptingTable TableKind.TempTable "input" (-1) [] }
        (runOf (sampleExecutor TableKind.PersistentTable 0 false
          [row 2 10, row 4 20, row 1 30]) (sampleEngine true)).engine).map
          (fun o => o.engine.m_tuplesModified)
        = some 10) :=
  have h := C12_second_run_inserts_again releaseBuild
    (sampleExecutor TableKind.PersistentTable (-1) false [row 1 10, row 2 20])
    (sampleEngine true)
    (runOf (sampleExecutor TableKind.PersistentTable (-1) false [row 1 10, row 2 20])
      (sampleEngine true))
    (acceptingTable TableKind.TempTable "input" (-1) [])
    [row 1 10, row 2 20]
    (by decide) (fun _ _ => rfl) (fun _ _ => rfl) (fun _ _ => rfl) (by rfl) (by rfl)
  have g := C12_second_run_inserts_again releaseBuild
    (sampleExecutor TableKind.PersistentTable 0 false [row 2 10, row 4 20, row 1 30])
    (sampleEngine true)
    (runOf (sampleExecutor TableKind.PersistentTable 0 false
      [row 2 10, row 4 20, row 1 30]) (sampleEngine true))
    (acceptingTable TableKind.TempTable "input" (-1) [])
    [row 2 10, row 4 20]
    (by decide) (fun _ _ => rfl) (fun _ _ => rfl) (fun _ _ => rfl) (by rfl) (by rfl)
  ⟨⟨h.1, (h.2.2.1 (by rfl)).2⟩, ⟨g.1, (g.2.2.2 (by rfl)).2⟩⟩

/-- On a plan node that meets the assertions of lines 72-90 (a target that is
persistent or streamed, exactly one input table, which is a temp table),
`p_init` succeeds and binds the executor given. -/
theorem p_init_of_valid (node : InsertPlanNode) (target input : Table)
    (hnode : node.targetTable = some target) (hin : node.inputTables = [input])
    (htemp : input.kind = TableKind.TempTable)
    (hkind : target.kind = TableKind.PersistentTable
      ∨ target.kind = TableKind.StreamedTable) :
    InsertExecutor.p_init node = some
      { m_inputTable := input
        m_targetTable := target
        outputTable := getCopiedTempTable input.name input node.outputAccepts
        m_partitionColumn :=
          if target.kind = TableKind.PersistentTable then target.partitionColumn else -1
        m_partitionColumnIsString :=
          decide (target.kind = TableKind.PersistentTable
            ∧ target.partitionColumn ≠ -1
            ∧ input.columnType target.partitionColumn = ValueType.VALUE_TYPE_VARCHAR)
        m_multiPartition := node.multiPartition } := by
  have h2 : ¬ (target.kind ≠ TableKind.PersistentTable
      ∧ target.kind ≠ TableKind.StreamedTable) := by
    rcases hkind with h | h <;> simp [h]
  unfold InsertExecutor.p_init
  rw [hnode, hin]
  simp only [htemp, h2, ne_eq, not_true_eq_false, if_false]
  by_cases hk : target.kind = TableKind.PersistentTable
  · by_cases hp : target.partitionColumn = -1
    · simp [hk, hp]
    · by_cases hv : input.columnType target.partitionColumn = ValueType.VALUE_TYPE_VARCHAR
      · simp [hk, hp, hv]
      · simp [hk, hp, hv]
  · simp [hk]

/-- C14 refuted as stated: the target is persistent, declares column 0 as its
partition column, and that column is `VALUE_TYPE_VARCHAR` in the target's
schema, but the input table declares column 0 as `VALUE_TYPE_INTEGER`:
`p_init` records column 0 and leaves the string flag false. -/
theorem C14_flag_follows_input_schema_counterexample :
    (InsertExecutor.p_init
        (typedNode [ValueType.VALUE_TYPE_VARCHAR, ValueType.VALUE_TYPE_INTEGER]
          [ValueType.VALUE_TYPE_INTEGER, ValueType.VALUE_TYPE_INTEGER] false
          [row 2 10])).map
        (fun ex => (ex.m_partitionColumn, ex.m_partitionColumnIsString,
          ex.m_targetTable.kind, ex.m_targetTable.partitionColumn,
          ex.m_targetTable.columnType ex.m_targetTable.partitionColumn))
      = some (0, false, TableKind.PersistentTable, 0, ValueType.VALUE_TYPE_VARCHAR) := by
  decide

/-- C14, as the code has it: on a plan node that meets its assertions `p_init`
succeeds; the partition column it records is the one the target declares when
the target is persistent, and `-1` when it is streamed; the string flag is
true exactly when the target is persistent, declares a partition column, and
the type at that column in the schema of the input table, which is the schema
line 100 reads, is `VALUE_TYPE_VARCHAR` (that is the type of the target's
column when the two schemas agree there); and an executor bound with `-1`
asks the ownership oracle nothing in any run. -/
theorem C14_partition_descriptor (node : InsertPlanNode) (target input : Table)
    (hnode : node.targetTable = some target) (hin : node.inputTables = [input])
    (htemp : input.kind = TableKind.TempTable)
    (hkind : target.kind = TableKind.PersistentTable
      ∨ target.kind = TableKind.StreamedTable) :
    (target.kind = TableKind.PersistentTable →
        (InsertExecutor.p_init node).map InsertExecutor.m_partitionColumn
          = some target.partitionColumn)
      ∧ (target.kind = TableKind.StreamedTable →
        (InsertExecutor.p_init node).map InsertExecutor.m_partitionColumn = some (-1))
      ∧ (InsertExecutor.p_init node).map InsertExecutor.m_partitionColumnIsString
        = some (decide (target.kind = TableKind.PersistentTable
            ∧ target.partitionColumn ≠ -1
            ∧ input.columnType target.partitionColumn = ValueType.VALUE_TYPE_VARCHAR))
      ∧ (target.columnType target.partitionColumn
            = input.columnType target.partitionColumn →
          (InsertExecutor.p_init node).map InsertExecutor.m_partitionColumnIsString
            = some (decide (target.kind = TableKind.PersistentTable
                ∧ target.partitionColumn ≠ -1
                ∧ target.columnType target.partitionColumn
                  = ValueType.VALUE_TYPE_VARCHAR)))
      ∧ (∀ ex, InsertExecutor.p_init node = some ex → ex.m_partitionColumn = -1 →
          ∀ flags eng out, ex.p_execute flags eng = some out →
            oracleQueriesOf out.trace = []) := by
  have hp := p_init_of_valid node target input hnode hin htemp hkind
  refine ⟨?_, ?_, ?_, ?_, ?_⟩
  · intro hk; rw [hp]; simp [hk]
  · intro hk; rw [hp]; simp [hk]
  · rw [hp]; rfl
  · intro hsame; rw [hp, hsame]; rfl
  · intro ex _ hpc flags eng out hrun
    exact p_execute_no_query flags ex eng out hpc hrun

/-- C14, as the code has it, at a persistent target partitioned on a string
column: `p_init` records column 0 and sets the string flag. -/
theorem C14_partition_descriptor_witness :
    (InsertExecutor.p_init
        (typedNode [ValueType.VALUE_TYPE_VARCHAR, ValueType.VALUE_TYPE_INTEGER]
          [ValueType.VALUE_TYPE_VARCHAR, ValueType.VALUE_TYPE_INTEGER] true
          [keyRow "a" 10])).map InsertExecutor.m_partitionColumn = some 0
      ∧ (InsertExecutor.p_init
        (typedNode [ValueType.VALUE_TYPE_VARCHAR, ValueType.VALUE_TYPE_INTEGER]
          [ValueType.VALUE_TYPE_VARCHAR, ValueType.VALUE_TYPE_INTEGER] true
          [keyRow "a" 10])).map InsertExecutor.m_partitionColumnIsString = some true :=
  have h := C14_partition_descriptor
    (typedNode [ValueType.VALUE_TYPE_VARCHAR, ValueType.VALUE_TYPE_INTEGER]
      [ValueType.VALUE_TYPE_VARCHAR, ValueType.VALUE_TYPE_INTEGER] true [keyRow "a" 10])
    (typedTable TableKind.PersistentTable "T"
      [ValueType.VALUE_TYPE_VARCHAR, ValueType.VALUE_TYPE_INTEGER] 0 [])
    (typedTable TableKind.TempTable "input"
      [ValueType.VALUE_TYPE_VARCHAR, ValueType.VALUE_TYPE_INTEGER] (-1) [keyRow "a" 10])
    rfl rfl rfl (Or.inl rfl)
  ⟨h.1 rfl, h.2.2.1⟩

end voltdb
